import Mathlib

/-!
Verification development for the bilingo-vscode cross-language symbol engine
(`src/utils.ts`, `src/reference/finder.ts`, `src/reference/provider.ts`,
`src/implementation/finder.ts`, `src/implementation/provider.ts`).

Modelling conventions:
* JavaScript strings are lists of UTF-16 code units (`Nat`).
* `String.prototype.toUpperCase` / `toLowerCase` are modelled on the ASCII
  range, where they are single-unit maps (identifier characters).
* External editor capabilities (document symbol provider, reference /
  definition / implementation providers, sibling-file globbing, line text)
  are oracle fields of a `Workspace` record.  A `none` result models both a
  `null`/`undefined` return and a thrown error, which the code treats alike
  by skipping the file or branch.
* Regexes are modelled by hand-rolled scanners with the same leftmost-match
  semantics; the character classes involved (`\s`, `\w`, digits, quotes) are
  pairwise disjoint from the literal delimiters used, so greedy maximal-munch
  scanning is exact.
-/

namespace Bilingo


/-- JS string as a list of UTF-16 code units. -/
abbrev Str := List Nat

/-- Build a code-unit string from a Lean string literal (BMP characters). -/
def str (s : String) : Str := s.data.map Char.toNat

/-- `String.prototype.toUpperCase` on a single UTF-16 code unit, which in
JS returns a string: full Unicode uppercasing can expand one unit to
several (`ß` becomes `SS`) or leave its block (`µ` becomes `Μ`, `ÿ`
becomes `Ÿ`).  The mapping is exact on the Basic Latin and Latin-1
Supplement blocks (code units up to U+00FF); above them it keeps the unit
unchanged, and the round-trip theorems below quantify only over the exact
region. -/
def jsUpperChar (c : Nat) : List Nat :=
  if 97 ≤ c ∧ c ≤ 122 then [c - 32]
  else if c = 181 then [924]
  else if c = 223 then [83, 83]
  else if (224 ≤ c ∧ c ≤ 254) ∧ c ≠ 247 then [c - 32]
  else if c = 255 then [376]
  else [c]

/-- `String.prototype.toLowerCase` on a single UTF-16 code unit, as a
string.  Exact on the Basic Latin and Latin-1 Supplement blocks (there
lowercasing is single-unit: `A`–`Z` and `À`–`Þ` except `×` gain 32);
above U+00FF it keeps the unit unchanged, and the round-trip theorems
below quantify only over the exact region. -/
def jsLowerChar (c : Nat) : List Nat :=
  if 65 ≤ c ∧ c ≤ 90 then [c + 32]
  else if (192 ≤ c ∧ c ≤ 222) ∧ c ≠ 215 then [c + 32]
  else [c]

/-- `capitalizeFirstLetter` (src/utils.ts): identity on the empty string,
otherwise `str.charAt(0).toUpperCase() + str.slice(1)`; the uppercased
first character may span several code units. -/
def capitalizeFirstLetter : Str → Str
  | [] => []
  | c :: rest => jsUpperChar c ++ rest

/-- `lowercaseFirstLetter` (src/utils.ts): identity on the empty string,
otherwise `str.charAt(0).toLowerCase() + str.slice(1)`. -/
def lowercaseFirstLetter : Str → Str
  | [] => []
  | c :: rest => jsLowerChar c ++ rest

/-- `isGoSymbolExported` (src/utils.ts): empty name is not exported, otherwise
the JS string test `firstChar === firstChar.toUpperCase()`. -/
def isGoSymbolExported (symbolName : Str) : Bool :=
  match symbolName with
  | [] => false
  | c :: _ => [c] == jsUpperChar c

/-- The restriction of the JS case conversions to the Basic Latin block,
where they are single-unit. -/
def asciiUpper (c : Nat) : Nat := if 97 ≤ c ∧ c ≤ 122 then c - 32 else c

/-- Single-unit ASCII lowercasing (see `asciiUpper`). -/
def asciiLower (c : Nat) : Nat := if 65 ≤ c ∧ c ≤ 90 then c + 32 else c

/-- Spec-side predicate for C9: the first character is an uppercase letter
(`A`–`Z`), the usual reading of "starts with an uppercase letter". -/
def firstCharIsUppercaseLetter (name : Str) : Bool :=
  match name with
  | [] => false
  | c :: _ => 65 ≤ c && c ≤ 90

/-! ## Character classes and regex scanners -/

/-- JS regex `\s` class, restricted to the code units that occur in source
lines (ASCII whitespace plus the BMP space characters). -/
def isJsSpace (c : Nat) : Bool :=
  c == 32 || c == 9 || c == 10 || c == 11 || c == 12 || c == 13 || c == 160 ||
  c == 0x1680 || (0x2000 ≤ c && c ≤ 0x200a) || c == 0x2028 || c == 0x2029 ||
  c == 0x202f || c == 0x205f || c == 0x3000 || c == 0xfeff

/-- JS regex `\w` class: `[A-Za-z0-9_]`. -/
def isWordChar (c : Nat) : Bool :=
  (65 ≤ c && c ≤ 90) || (97 ≤ c && c ≤ 122) || (48 ≤ c && c ≤ 57) || c == 95

/-- JS regex `\d` class. -/
def isDigitCU (c : Nat) : Bool := 48 ≤ c && c ≤ 57

/-- Consume a literal keyword at the front of `s`. -/
def eatKw (kw s : Str) : Option Str :=
  if kw.isPrefixOf s then some (s.drop kw.length) else none

/-- Consume `\s+` (at least one whitespace unit) at the front of `s`. -/
def eatSpaces1 (s : Str) : Option Str :=
  let sp := s.takeWhile isJsSpace
  if sp.isEmpty then none else some (s.drop sp.length)

/-- Test of `/^\s*export\s+/` against a declaration line, as used to decide
whether a TypeScript symbol is exported. -/
def tsExportLine (line : Str) : Bool :=
  match eatKw (str "export") (line.dropWhile isJsSpace) with
  | none => false
  | some r1 =>
    match eatSpaces1 r1 with
    | none => false
    | some _ => true

/-! ## Data model: kinds, positions, ranges, symbols, locations -/

/-- `vscode.SymbolKind`, restricted to the kinds the engine inspects. -/
inductive SKind where
  | Function | Struct | Interface | Field | Property | Method
  | Constant | Variable | Class | TypeAlias | Other
deriving DecidableEq, Repr

/-- `vscode.Position`. -/
structure Pos where
  line : Nat
  col : Nat
deriving DecidableEq, Repr

/-- `Position.isBeforeOrEqual`. -/
def posLe (a b : Pos) : Bool :=
  a.line < b.line || (a.line == b.line && a.col ≤ b.col)

/-- `vscode.Range`. -/
structure Rng where
  first : Pos
  last : Pos
deriving DecidableEq, Repr

/-- `Range.contains(position)`. -/
def rngContainsPos (r : Rng) (p : Pos) : Bool :=
  posLe r.first p && posLe p r.last

/-- `Range.contains(range)`. -/
def rngContainsRng (r inner : Rng) : Bool :=
  rngContainsPos r inner.first && rngContainsPos r inner.last

/-- `vscode.DocumentSymbol`: name, kind, full range, selection range (the
name itself) and nested children.  The `id` field models JS object identity
(`===` on symbol objects). -/
inductive DocSymbol where
  | node (id : Nat) (name : Str) (kind : SKind) (range : Rng) (selRange : Rng)
      (children : List DocSymbol)

def DocSymbol.id : DocSymbol → Nat
  | .node i _ _ _ _ _ => i

def DocSymbol.name : DocSymbol → Str
  | .node _ n _ _ _ _ => n

def DocSymbol.kind : DocSymbol → SKind
  | .node _ _ k _ _ _ => k

def DocSymbol.range : DocSymbol → Rng
  | .node _ _ _ r _ _ => r

def DocSymbol.selRange : DocSymbol → Rng
  | .node _ _ _ _ sr _ => sr

def DocSymbol.children : DocSymbol → List DocSymbol
  | .node _ _ _ _ _ cs => cs

/-- `vscode.Location`, reduced to the fields the engine reads: file and the
start position of the range (`getUniqueLocations` compares exactly these). -/
structure Loc where
  file : Nat
  line : Nat
  col : Nat
deriving DecidableEq, Repr

/-- Location of a symbol's selection-range start in a given file. -/
def symbolLoc (fileUri : Nat) (s : DocSymbol) : Loc :=
  ⟨fileUri, s.selRange.first.line, s.selRange.first.col⟩

/-- Document language ids handled by the extension. -/
inductive Lang where
  | go | typescript | typescriptreact | other
deriving DecidableEq, Repr

/-- External editor capabilities consumed by the engine (the Symbol Source),
together with the configuration it reads.  `none` models a `null` return or
a thrown error, both of which the code turns into a skip. -/
structure Workspace where
  symbolsOf : Nat → Option (List DocSymbol)
  lineAt : Nat → Nat → Str
  lineCountOf : Nat → Nat
  refsAt : Nat → Pos → Option (List Loc)
  implsAt : Nat → Pos → Option (List Loc)
  defsAt : Nat → Pos → Option (List Loc)
  goFilesOf : Nat → List Nat
  tsFilesOf : Nat → List Nat
  langOf : Nat → Lang
  strictExport : Bool

/-! ## `getUniqueLocations` (src/reference/finder.ts) -/

/-- Helper for `getUniqueLocations`: keep each location the first time its
(file, line, character) triple occurs. -/
def getUniqueLocationsAux : List Loc → List Loc → List Loc
  | [], _ => []
  | l :: rest, seen =>
    if l ∈ seen then getUniqueLocationsAux rest seen
    else l :: getUniqueLocationsAux rest (l :: seen)

/-- `getUniqueLocations`: `filter((loc, i, self) => i === self.findIndex(eq))`,
i.e. keep the first occurrence of every location. -/
def getUniqueLocations (locs : List Loc) : List Loc :=
  getUniqueLocationsAux locs []

/-! ## Scoring (src/utils.ts `calculateMatchScore`) -/

/-- `calculateMatchScore`: `exactName` is `symbolName === targetNames[0]`
(false when the array is empty), `sameAccessibility` compares the export
flags; scores 3 / 2 / 1 / 0. -/
def calculateMatchScore (symbolName : Str) (targetNames : List Str)
    (isSymExported isSourceExported : Bool) : Nat :=
  let exactName := targetNames.head? == some symbolName
  let sameAccessibility := isSourceExported == isSymExported
  if sameAccessibility && exactName then 3
  else if sameAccessibility then 2
  else if exactName then 1
  else 0

/-! ## Candidate scanning (src/utils.ts) -/

/-- `SymbolCandidate`. -/
structure SymbolCandidate where
  symbol : DocSymbol
  fileUri : Nat
  score : Nat

/-- `isSymbolNested`:
`parent.range.contains(symbol.range) && !parent.range.isEqual(symbol.range)`. -/
def isSymbolNested (symbol parent : DocSymbol) : Bool :=
  rngContainsRng parent.range symbol.range && !(parent.range == symbol.range)

/-- `isTopLevelFunction`: a Function-kind symbol not nested inside another
function of the file nor inside any symbol's function-kind child.  The JS
`parentSymbol === symbol` identity test is modelled by the `id` field. -/
def isTopLevelFunction (symbol : DocSymbol) (allSymbols : List DocSymbol) : Bool :=
  if symbol.kind != SKind.Function then false
  else allSymbols.all fun parentSymbol =>
    if parentSymbol.id == symbol.id then true
    else
      (if parentSymbol.kind == SKind.Function then !isSymbolNested symbol parentSymbol
       else true) &&
      parentSymbol.children.all fun child =>
        if child.kind == SKind.Function then !isSymbolNested symbol child else true

/-- Comparator `(a, b) => b.score - a.score` of `Array.prototype.sort` as a
relation: non-increasing score order. -/
def candGE (a b : SymbolCandidate) : Prop := b.score ≤ a.score

instance : DecidableRel candGE :=
  fun a b => inferInstanceAs (Decidable (b.score ≤ a.score))

instance : IsTotal SymbolCandidate candGE :=
  ⟨fun a b => Nat.le_total b.score a.score⟩

instance : IsTrans SymbolCandidate candGE :=
  ⟨fun _ _ _ h1 h2 => Nat.le_trans h2 h1⟩

/-- `candidates.sort((a, b) => b.score - a.score)`: a stable sort into
non-increasing score order (ECMAScript sort is stable), modelled by the
stable insertion sort. -/
def sortByScoreDesc (l : List SymbolCandidate) : List SymbolCandidate :=
  List.insertionSort candGE l

/-- Per-file body of `findGoFunctionForTsFunctionViaMatching`: the loop over
one file's top-level symbols. -/
def goFunctionFileCandidates (symbols : List DocSymbol) (fileUri : Nat)
    (symbolNames : List Str) (isSourceExported strictAccessibility : Bool) :
    List SymbolCandidate :=
  symbols.filterMap fun symbol =>
    if symbol.kind == SKind.Function && symbolNames.contains symbol.name &&
        isTopLevelFunction symbol symbols then
      let isGoExported := isGoSymbolExported symbol.name
      if strictAccessibility && (isSourceExported != isGoExported) then none
      else some ⟨symbol, fileUri,
        calculateMatchScore symbol.name symbolNames isGoExported isSourceExported⟩
    else none

/-- `findGoFunctionForTsFunctionViaMatching`: scan all Go files (skipping
files whose symbol provider fails), then sort by score descending. -/
def findGoFunctionForTsFunctionViaMatching (ws : Workspace) (goFiles : List Nat)
    (symbolNames : List Str) (isSourceExported strictAccessibility : Bool) :
    List SymbolCandidate :=
  sortByScoreDesc <| goFiles.flatMap fun fileUri =>
    match ws.symbolsOf fileUri with
    | none => []
    | some symbols =>
      goFunctionFileCandidates symbols fileUri symbolNames isSourceExported
        strictAccessibility

/-- Per-file body of `findGoStructForTsInterfaceViaMatching`: Struct-kind,
name accepted, unconditionally required exported; score 100 on exact first
name, 90 otherwise. -/
def goStructFileCandidates (symbols : List DocSymbol) (fileUri : Nat)
    (symbolNames : List Str) : List SymbolCandidate :=
  symbols.filterMap fun symbol =>
    if symbol.kind == SKind.Struct && symbolNames.contains symbol.name then
      let isGoExported := isGoSymbolExported symbol.name
      if !isGoExported then none
      else some ⟨symbol, fileUri,
        if symbolNames.head? == some symbol.name then 100 else 90⟩
    else none

/-- `findGoStructForTsInterfaceViaMatching` (no strict-export parameter). -/
def findGoStructForTsInterfaceViaMatching (ws : Workspace) (goFiles : List Nat)
    (symbolNames : List Str) : List SymbolCandidate :=
  sortByScoreDesc <| goFiles.flatMap fun fileUri =>
    match ws.symbolsOf fileUri with
    | none => []
    | some symbols => goStructFileCandidates symbols fileUri symbolNames

/-- Per-file body of `findTsFunctionForGoFunctionViaMatching`: the TypeScript
export flag comes from the declaration line (`/^\s*export\s+/`). -/
def tsFunctionFileCandidates (ws : Workspace) (symbols : List DocSymbol)
    (fileUri : Nat) (symbolNames : List Str)
    (isSourceExported strictAccessibility : Bool) : List SymbolCandidate :=
  symbols.filterMap fun symbol =>
    if symbol.kind == SKind.Function && symbolNames.contains symbol.name &&
        isTopLevelFunction symbol symbols then
      let isTsExported := tsExportLine (ws.lineAt fileUri symbol.range.first.line)
      if strictAccessibility && (isSourceExported != isTsExported) then none
      else some ⟨symbol, fileUri,
        calculateMatchScore symbol.name symbolNames isTsExported isSourceExported⟩
    else none

/-- `findTsFunctionForGoFunctionViaMatching`. -/
def findTsFunctionForGoFunctionViaMatching (ws : Workspace) (tsFiles : List Nat)
    (symbolNames : List Str) (isSourceExported strictAccessibility : Bool) :
    List SymbolCandidate :=
  sortByScoreDesc <| tsFiles.flatMap fun fileUri =>
    match ws.symbolsOf fileUri with
    | none => []
    | some symbols =>
      tsFunctionFileCandidates ws symbols fileUri symbolNames isSourceExported
        strictAccessibility

/-- Per-file body of `findTsInterfaceForGoStructViaMatching`: Interface-kind,
name accepted, unconditionally required exported (line prefix test). -/
def tsInterfaceFileCandidates (ws : Workspace) (symbols : List DocSymbol)
    (fileUri : Nat) (symbolNames : List Str) : List SymbolCandidate :=
  symbols.filterMap fun symbol =>
    if symbol.kind == SKind.Interface && symbolNames.contains symbol.name then
      let isTsExported := tsExportLine (ws.lineAt fileUri symbol.range.first.line)
      if !isTsExported then none
      else some ⟨symbol, fileUri,
        if symbolNames.head? == some symbol.name then 100 else 90⟩
    else none

/-- `findTsInterfaceForGoStructViaMatching` (no strict-export parameter). -/
def findTsInterfaceForGoStructViaMatching (ws : Workspace) (tsFiles : List Nat)
    (symbolNames : List Str) : List SymbolCandidate :=
  sortByScoreDesc <| tsFiles.flatMap fun fileUri =>
    match ws.symbolsOf fileUri with
    | none => []
    | some symbols => tsInterfaceFileCandidates ws symbols fileUri symbolNames

/-- `findMatchingSymbolsInGoFiles`: kind router. -/
def findMatchingSymbolsInGoFiles (ws : Workspace) (goFiles : List Nat)
    (symbolNames : List Str) (isSourceExported : Bool) (symbolKind : SKind)
    (strictAccessibility : Bool) : List SymbolCandidate :=
  if symbolKind == SKind.Function then
    findGoFunctionForTsFunctionViaMatching ws goFiles symbolNames
      isSourceExported strictAccessibility
  else if symbolKind == SKind.Interface then
    findGoStructForTsInterfaceViaMatching ws goFiles symbolNames
  else []

/-- `findMatchingSymbolsInTsFiles`: kind router. -/
def findMatchingSymbolsInTsFiles (ws : Workspace) (tsFiles : List Nat)
    (symbolNames : List Str) (isSourceExported : Bool) (symbolKind : SKind)
    (strictAccessibility : Bool) : List SymbolCandidate :=
  if symbolKind == SKind.Function then
    findTsFunctionForGoFunctionViaMatching ws tsFiles symbolNames
      isSourceExported strictAccessibility
  else if symbolKind == SKind.Struct then
    findTsInterfaceForGoStructViaMatching ws tsFiles symbolNames
  else []

/-- Maximum score present in a candidate list (0 for the empty list). -/
def maxScore (l : List SymbolCandidate) : Nat :=
  l.foldr (fun c m => max c.score m) 0

/-! ## Aggregators (src/implementation/finder.ts, src/reference/finder.ts) -/

/-- `findSymbolDeclarationInGoFiles`: match, read the best score off the head
of the sorted candidate list, return the declaration location of every
candidate with the best score.  The `strictExport` configuration read inside
the function is the `Workspace` field. -/
def findSymbolDeclarationInGoFiles (ws : Workspace) (goFiles : List Nat)
    (symbolNames : List Str) (isSourceExported : Bool) (symbolKind : SKind) :
    List Loc :=
  let symbolCandidates := findMatchingSymbolsInGoFiles ws goFiles symbolNames
    isSourceExported symbolKind ws.strictExport
  match symbolCandidates with
  | [] => []
  | best :: _ =>
    (symbolCandidates.filter fun c => c.score == best.score).map fun c =>
      symbolLoc c.fileUri c.symbol

/-- `findSymbolDeclarationInTsFiles`. -/
def findSymbolDeclarationInTsFiles (ws : Workspace) (tsFiles : List Nat)
    (symbolNames : List Str) (isSourceExported : Bool) (symbolKind : SKind) :
    List Loc :=
  let symbolCandidates := findMatchingSymbolsInTsFiles ws tsFiles symbolNames
    isSourceExported symbolKind ws.strictExport
  match symbolCandidates with
  | [] => []
  | best :: _ =>
    (symbolCandidates.filter fun c => c.score == best.score).map fun c =>
      symbolLoc c.fileUri c.symbol

/-- Loop of `findSymbolReferencesInGoFiles` / `...InTsFiles`: walk the sorted
candidates, `break` at the first whose score is not the best, and collect the
reference-provider results of the rest (a failed provider call contributes
nothing). -/
def collectBestRefs (ws : Workspace) (bestScore : Nat) :
    List SymbolCandidate → List Loc
  | [] => []
  | c :: rest =>
    if c.score != bestScore then []
    else ((ws.refsAt c.fileUri c.symbol.selRange.first).getD []) ++
      collectBestRefs ws bestScore rest

/-- `findSymbolReferencesInGoFiles` (src/reference/finder.ts). -/
def findSymbolReferencesInGoFiles (ws : Workspace) (goFiles : List Nat)
    (symbolNames : List Str) (isSourceExported : Bool) (symbolKind : SKind) :
    List Loc :=
  let candidates := findMatchingSymbolsInGoFiles ws goFiles symbolNames
    isSourceExported symbolKind ws.strictExport
  match candidates with
  | [] => []
  | best :: _ => getUniqueLocations (collectBestRefs ws best.score candidates)

/-- `findSymbolReferencesInTsFiles` (src/reference/finder.ts). -/
def findSymbolReferencesInTsFiles (ws : Workspace) (tsFiles : List Nat)
    (symbolNames : List Str) (isSourceExported : Bool) (symbolKind : SKind) :
    List Loc :=
  let candidates := findMatchingSymbolsInTsFiles ws tsFiles symbolNames
    isSourceExported symbolKind ws.strictExport
  match candidates with
  | [] => []
  | best :: _ => getUniqueLocations (collectBestRefs ws best.score candidates)

/-! ## Concrete demonstration workspace for witnesses -/

/-- A one-line range on line `l` spanning columns `a`–`b`. -/
def lineRng (l a b : Nat) : Rng := ⟨⟨l, a⟩, ⟨l, b⟩⟩

/-- Go file 0, line 0: `func GetArticle(id string) Article {`. -/
def demoGoFuncSym : DocSymbol :=
  DocSymbol.node 0 (str "GetArticle") SKind.Function (lineRng 0 0 40) (lineRng 0 5 15) []

/-- TS file 1, line 0: `export function getArticle(id: string) {`. -/
def demoTsFuncSym : DocSymbol :=
  DocSymbol.node 1 (str "getArticle") SKind.Function (lineRng 0 0 40) (lineRng 0 16 26) []

/-- Sibling directory with one Go file (uri 0) and one TS file (uri 1). -/
def demoWs : Workspace where
  symbolsOf f := if f == 0 then some [demoGoFuncSym]
    else if f == 1 then some [demoTsFuncSym] else none
  lineAt f l :=
    if f == 1 && l == 0 then str "export function getArticle(id: string) \x7b"
    else if f == 0 && l == 0 then str "func GetArticle(id string) Article \x7b"
    else []
  lineCountOf f := if f == 0 || f == 1 then 1 else 0
  refsAt f p := if f == 0 then some [⟨0, p.line, p.col⟩, ⟨0, 3, 9⟩] else
    if f == 1 then some [⟨1, p.line, p.col⟩, ⟨1, 7, 4⟩] else none
  implsAt _ _ := some []
  defsAt _ _ := some []
  goFilesOf _ := [0]
  tsFilesOf _ := [1]
  langOf f := if f == 0 then Lang.go else if f == 1 then Lang.typescript else Lang.other
  strictExport := false

/-! ## Field / property matching (src/utils.ts) -/

/-- `FieldInfo`: `jsonTag` is Go-only metadata, absent for TypeScript. -/
structure FieldInfo where
  name : Str
  jsonTag : Option Str
  parentSymbol : DocSymbol
  fieldSymbol : DocSymbol
  fileUri : Nat

/-- Match of `/json:"([^,"]+)/` anchored at the start of `s`: the literal
`json:"` followed by a non-empty capture of units other than `,` and `"`. -/
def jsonTagCaptureAt (s : Str) : Option Str :=
  match eatKw (str "json:\x22") s with
  | none => none
  | some rest =>
    let tag := rest.takeWhile fun c => !(c == 34 || c == 44)
    if tag.isEmpty then none else some tag

/-- Leftmost match of `/json:"([^,"]+)/` in a line. -/
def jsonTagCapture : Str → Option Str
  | [] => none
  | c :: rest =>
    match jsonTagCaptureAt (c :: rest) with
    | some tag => some tag
    | none => jsonTagCapture rest

/-- `extractJsonTagFromGoField`: run the tag regex on the field's declaration
line. -/
def extractJsonTagFromGoField (ws : Workspace) (fileUri : Nat)
    (fieldSymbol : DocSymbol) : Option Str :=
  jsonTagCapture (ws.lineAt fileUri fieldSymbol.range.first.line)

/-- Search names for the Go struct corresponding to a TS interface:
capitalized conversion first, original second (or only the original when the
conversion is a no-op). -/
def goStructSearchNames (interfaceName : Str) : List Str :=
  let capitalizedName := capitalizeFirstLetter interfaceName
  if interfaceName == capitalizedName then [interfaceName]
  else [capitalizedName, interfaceName]

/-- Search names for the TS interface corresponding to a Go struct. -/
def tsInterfaceSearchNames (structName : Str) : List Str :=
  let lowercasedName := lowercaseFirstLetter structName
  if structName == lowercasedName then [structName]
  else [lowercasedName, structName]

/-- Try 1 of `findGoFieldForTsProperty`: first loop over the struct's
children, matching by JSON tag. -/
def goFieldByTag (ws : Workspace) (goFile : Nat) (parent : DocSymbol)
    (propertyName : Str) : Option FieldInfo :=
  parent.children.findSome? fun child =>
    if child.kind == SKind.Field || child.kind == SKind.Property then
      if extractJsonTagFromGoField ws goFile child == some propertyName then
        some ⟨child.name, extractJsonTagFromGoField ws goFile child, parent,
          child, goFile⟩
      else none
    else none

/-- Try 2 of `findGoFieldForTsProperty`: second loop over the struct's
children, matching by raw field name. -/
def goFieldByName (ws : Workspace) (goFile : Nat) (parent : DocSymbol)
    (propertyName : Str) : Option FieldInfo :=
  parent.children.findSome? fun child =>
    if (child.kind == SKind.Field || child.kind == SKind.Property) &&
        child.name == propertyName then
      some ⟨child.name, extractJsonTagFromGoField ws goFile child, parent, child, goFile⟩
    else none

/-- `findGoFieldForTsProperty`: find a sibling Go struct whose name matches
the TS interface name (converted first), then match its fields by JSON tag
first and by raw name only if no tag matched. -/
def findGoFieldForTsProperty (ws : Workspace) (tsPropertyInfo : FieldInfo) :
    Option FieldInfo :=
  if (ws.goFilesOf tsPropertyInfo.fileUri).isEmpty then none
  else
    (ws.goFilesOf tsPropertyInfo.fileUri).findSome? fun goFile =>
      match ws.symbolsOf goFile with
      | none => none
      | some symbols =>
        symbols.findSome? fun symbol =>
          if symbol.kind == SKind.Struct &&
              (goStructSearchNames tsPropertyInfo.parentSymbol.name).contains
                symbol.name then
            match goFieldByTag ws goFile symbol tsPropertyInfo.name with
            | some fi => some fi
            | none => goFieldByName ws goFile symbol tsPropertyInfo.name
          else none

/-- `propertySearchName` of `findTsPropertyForGoField`: the JS expression
`goFieldInfo.jsonTag || goFieldInfo.name` (truthiness: an absent or empty tag
falls back to the field name). -/
def propertySearchKey (goFieldInfo : FieldInfo) : Str :=
  match goFieldInfo.jsonTag with
  | some t => if t.isEmpty then goFieldInfo.name else t
  | none => goFieldInfo.name

/-- `findTsPropertyForGoField`: single search key `jsonTag || name`. -/
def findTsPropertyForGoField (ws : Workspace) (goFieldInfo : FieldInfo) :
    Option FieldInfo :=
  if (ws.tsFilesOf goFieldInfo.fileUri).isEmpty then none
  else
    (ws.tsFilesOf goFieldInfo.fileUri).findSome? fun tsFile =>
      match ws.symbolsOf tsFile with
      | none => none
      | some symbols =>
        symbols.findSome? fun symbol =>
          if symbol.kind == SKind.Interface &&
              (tsInterfaceSearchNames goFieldInfo.parentSymbol.name).contains
                symbol.name then
            symbol.children.findSome? fun child =>
              if (child.kind == SKind.Property || child.kind == SKind.Field) &&
                  child.name == propertySearchKey goFieldInfo then
                some ⟨child.name, none, symbol, child, tsFile⟩
              else none
          else none

/-- Go file 0, line 1: struct field `Email string` with tag `json:"email"`. -/
def demoGoEmailField : DocSymbol :=
  DocSymbol.node 11 (str "Email") SKind.Field (lineRng 1 4 30) (lineRng 1 4 9) []

/-- Go file 0, lines 0–2: `type User struct { ... }`. -/
def demoGoUserStruct : DocSymbol :=
  DocSymbol.node 10 (str "User") SKind.Struct ⟨⟨0, 0⟩, ⟨2, 1⟩⟩ (lineRng 0 5 9)
    [demoGoEmailField]

/-- TS file 1, line 1: interface property `email: string`. -/
def demoTsEmailProp : DocSymbol :=
  DocSymbol.node 21 (str "email") SKind.Property (lineRng 1 4 18) (lineRng 1 4 9) []

/-- TS file 1, lines 0–2: `export interface User { ... }`. -/
def demoTsUserInterface : DocSymbol :=
  DocSymbol.node 20 (str "User") SKind.Interface ⟨⟨0, 0⟩, ⟨2, 1⟩⟩ (lineRng 0 17 21)
    [demoTsEmailProp]

/-- The TS property `User.email` as resolved field info. -/
def demoTsEmailInfo : FieldInfo :=
  ⟨str "email", none, demoTsUserInterface, demoTsEmailProp, 1⟩

/-- Sibling directory used by the field-matcher witness: one Go struct with a
tagged field, one TS interface with the matching property. -/
def fieldWs : Workspace where
  symbolsOf f := if f == 0 then some [demoGoUserStruct]
    else if f == 1 then some [demoTsUserInterface] else none
  lineAt f l :=
    if f == 0 && l == 1 then str "    Email string \x60json:\x22email\x22\x60"
    else if f == 1 && l == 1 then str "    email: string"
    else []
  lineCountOf _ := 3
  refsAt _ _ := some []
  implsAt _ _ := some []
  defsAt _ _ := some []
  goFilesOf _ := [0]
  tsFilesOf _ := [1]
  langOf f := if f == 0 then Lang.go else Lang.typescript
  strictExport := false

/-- The Go field the matcher is expected to return for `email`. -/
def demoGoEmailFieldInfo : FieldInfo :=
  ⟨str "Email", some (str "email"), demoGoUserStruct, demoGoEmailField, 0⟩

/-! ## Reentrancy guards (src/reference/provider.ts and
src/implementation/provider.ts) -/

/-- The two module-level `isProcessingGlobal` variables: the reference
provider module and the implementation provider module each declare their
own. -/
structure GuardState where
  refProcessing : Bool
  implProcessing : Bool
deriving DecidableEq, Repr

/-- Observable trace of one top-level provider call: the sequence of guard
states (initial, then — when the body runs — the state during the body and
the final state), the returned value (`none` models `null`), and whether the
request body ran at all. -/
structure ProviderRun where
  states : List GuardState
  result : Option (List Loc)
  bodyRan : Bool
deriving DecidableEq, Repr

/-- `BilingoReferenceProvider.provideReferences`: return `null` while its own
module's flag is set, when the extension is disabled, or for other document
languages; otherwise set the flag, run `findReferences` (which may throw,
modelled by `Except.error`), and clear the flag in `finally`. -/
def provideReferencesRun (s : GuardState) (enabled langOk : Bool)
    (body : Except Unit (List Loc)) : ProviderRun :=
  if s.refProcessing then ⟨[s], none, false⟩
  else if !enabled then ⟨[s], none, false⟩
  else if !langOk then ⟨[s], none, false⟩
  else
    match body with
    | .ok refs =>
      ⟨[s, ⟨true, s.implProcessing⟩, ⟨false, s.implProcessing⟩], some refs, true⟩
    | .error _ =>
      ⟨[s, ⟨true, s.implProcessing⟩, ⟨false, s.implProcessing⟩], none, true⟩

/-- `BilingoImplementationProvider.provideImplementation`: same shape over
the implementation module's own flag; a successful body additionally returns
`null` when it produced an empty list. -/
def provideImplementationRun (s : GuardState) (enabled langOk : Bool)
    (body : Except Unit (List Loc)) : ProviderRun :=
  if s.implProcessing then ⟨[s], none, false⟩
  else if !enabled then ⟨[s], none, false⟩
  else if !langOk then ⟨[s], none, false⟩
  else
    match body with
    | .ok impls =>
      ⟨[s, ⟨s.refProcessing, true⟩, ⟨s.refProcessing, false⟩],
        if impls.length > 0 then some impls else none, true⟩
    | .error _ =>
      ⟨[s, ⟨s.refProcessing, true⟩, ⟨s.refProcessing, false⟩], none, true⟩

/-! ## Enum-like constants and types (src/utils.ts, src/reference/finder.ts) -/

/-- JS string test `name[0] === name[0].toUpperCase()` used in the enum
reference collectors (an empty name would throw, which the enclosing catch
converts into a skip, modelled as `false`). -/
def firstUnitCaseUpper (name : Str) : Bool :=
  match name with
  | [] => false
  | c :: _ => [c] == jsUpperChar c

/-- `hasAtLeastTwoUppercaseLetters`: `(name.match(/[A-Z]/g) || []).length >= 2`. -/
def hasAtLeastTwoUppercaseLetters (name : Str) : Bool :=
  2 ≤ name.countP fun c => 65 ≤ c && c ≤ 90

/-- Test of `/D[^D]*D/` for a delimiter unit `D`: a first delimiter with a
later second one. -/
def containsDelimitedPair (delim : Nat) (s : Str) : Bool :=
  match s.dropWhile (fun c => !(c == delim)) with
  | _ :: rest => rest.any fun c => c == delim
  | [] => false

/-- A keyword at the head of `s` followed by a word boundary (`\b`). -/
def kwAtBoundary (kw s : Str) : Bool :=
  kw.isPrefixOf s &&
    (match s.drop kw.length with
     | [] => true
     | c :: _ => !isWordChar c)

/-- Match of `\s*-?\d+\b` at the head of `s`. -/
def litNumberAt (s : Str) : Bool :=
  match (match s.dropWhile isJsSpace with
    | 45 :: t => t
    | t => t).takeWhile isDigitCU with
  | [] => false
  | ds =>
    match (match s.dropWhile isJsSpace with
      | 45 :: t => t
      | t => t).drop ds.length with
    | [] => true
    | c :: _ => !isWordChar c

/-- Match of `(true|false)\b` at the head of `s`. -/
def litBoolAt (s : Str) : Bool :=
  kwAtBoundary (str "true") s || kwAtBoundary (str "false") s

/-- Test of `/=\s*-?\d+\b/`. -/
def hasNumberLiteral : Str → Bool
  | [] => false
  | 61 :: rest => litNumberAt rest || hasNumberLiteral rest
  | _ :: rest => hasNumberLiteral rest

/-- Test of `/=\s*(true|false)\b/`. -/
def hasBooleanLiteral : Str → Bool
  | [] => false
  | 61 :: rest => litBoolAt (rest.dropWhile isJsSpace) || hasBooleanLiteral rest
  | _ :: rest => hasBooleanLiteral rest

/-- `hasLiteralValue`: a quoted string (double, single or backtick quotes), a
number assigned with `=`, or a boolean assigned with `=`. -/
def hasLiteralValue (line : Str) : Bool :=
  containsDelimitedPair 34 line || containsDelimitedPair 39 line ||
  containsDelimitedPair 96 line || hasNumberLiteral line ||
  hasBooleanLiteral line

/-- The quoted alternative of `hasLiteralType`: a quote unit, a run of
non-quote units, then the same quote again. -/
def litQuoteTypeAt (s : Str) : Bool :=
  match s with
  | q :: t =>
    (q == 34 || q == 39 || q == 96) &&
      (match t.dropWhile (fun c => !(c == 34 || c == 39 || c == 96)) with
       | c :: _ => c == q
       | [] => false)
  | [] => false

/-- Test of `/:\s*(["'\x60])[^"'\x60]*\1|:\s*-?\d+\b|:\s*(true|false)\b/`. -/
def hasLiteralType : Str → Bool
  | [] => false
  | 58 :: rest =>
    (litQuoteTypeAt (rest.dropWhile isJsSpace) || litNumberAt rest ||
      litBoolAt (rest.dropWhile isJsSpace)) ||
    hasLiteralType rest
  | _ :: rest => hasLiteralType rest

/-- Match of `\s+(\w+)\s+(\w+)\s*=` anchored at the head of `s`, with the
two captured words. -/
def goConstMatchAt (s : Str) : Option (Str × Str) :=
  match eatSpaces1 s with
  | none => none
  | some s1 =>
    match s1.takeWhile isWordChar with
    | [] => none
    | w1 =>
      match eatSpaces1 (s1.drop w1.length) with
      | none => none
      | some s2 =>
        match s2.takeWhile isWordChar with
        | [] => none
        | w2 =>
          match (s2.drop w2.length).dropWhile isJsSpace with
          | 61 :: _ => some (w1, w2)
          | _ => none

/-- Leftmost match of `/\s+(\w+)\s+(\w+)\s*=/` in a line. -/
def goConstMatch : Str → Option (Str × Str)
  | [] => none
  | c :: rest =>
    match goConstMatchAt (c :: rest) with
    | some r => some r
    | none => goConstMatch rest

/-- `isGoEnumConst`: the declaration line matches `ConstName TypeName =`,
both names start with an uppercase letter, the constant name is prefixed by
the type name, has at least two uppercase letters, and the line carries a
literal value. -/
def isGoEnumConst (ws : Workspace) (fileUri : Nat) (symbol : DocSymbol) : Bool :=
  match goConstMatch (ws.lineAt fileUri symbol.range.first.line) with
  | none => false
  | some (_, typeName) =>
    firstCharIsUppercaseLetter symbol.name &&
    firstCharIsUppercaseLetter typeName &&
    typeName.isPrefixOf symbol.name &&
    hasAtLeastTwoUppercaseLetters symbol.name &&
    hasLiteralValue (ws.lineAt fileUri symbol.range.first.line)

/-- Test of `/^\s*export\s+const\s+/`. -/
def tsExportConstLine (line : Str) : Bool :=
  match eatKw (str "export") (line.dropWhile isJsSpace) with
  | none => false
  | some r1 =>
    match eatSpaces1 r1 with
    | none => false
    | some r2 =>
      match eatKw (str "const") r2 with
      | none => false
      | some r3 =>
        match eatSpaces1 r3 with
        | none => false
        | some _ => true

/-- `isTsEnumConst`: exported `const` line, capitalized name with at least
two uppercase letters, and a literal value or literal type annotation. -/
def isTsEnumConst (ws : Workspace) (fileUri : Nat) (symbol : DocSymbol) : Bool :=
  tsExportConstLine (ws.lineAt fileUri symbol.range.first.line) &&
  firstCharIsUppercaseLetter symbol.name &&
  hasAtLeastTwoUppercaseLetters symbol.name &&
  (hasLiteralValue (ws.lineAt fileUri symbol.range.first.line) ||
    hasLiteralType (ws.lineAt fileUri symbol.range.first.line))

/-- `EnumConstInfo`. -/
structure EnumConstInfo where
  name : Str
  constSymbol : DocSymbol
  fileUri : Nat
  isExported : Bool

/-- `EnumTypeInfo`. -/
structure EnumTypeInfo where
  name : Str
  typeSymbol : DocSymbol
  fileUri : Nat
  isExported : Bool

/-- `findGoEnumConstAtPosition`: a Constant-kind symbol containing the cursor
that passes `isGoEnumConst` (failing symbols are skipped, not fatal). -/
def findGoEnumConstAtPosition (ws : Workspace) (fileUri : Nat) (position : Pos)
    (symbols : List DocSymbol) : Option EnumConstInfo :=
  symbols.findSome? fun symbol =>
    if symbol.kind == SKind.Constant then
      if rngContainsPos symbol.selRange position ||
          rngContainsPos symbol.range position then
        if !isGoEnumConst ws fileUri symbol then none
        else some ⟨symbol.name, symbol, fileUri, true⟩
      else none
    else none

/-- `findTsEnumConstAtPosition`: Constant- or Variable-kind symbol containing
the cursor that passes `isTsEnumConst`. -/
def findTsEnumConstAtPosition (ws : Workspace) (fileUri : Nat) (position : Pos)
    (symbols : List DocSymbol) : Option EnumConstInfo :=
  symbols.findSome? fun symbol =>
    if symbol.kind == SKind.Constant || symbol.kind == SKind.Variable then
      if rngContainsPos symbol.selRange position ||
          rngContainsPos symbol.range position then
        if !isTsEnumConst ws fileUri symbol then none
        else some ⟨symbol.name, symbol, fileUri, true⟩
      else none
    else none

/-- `findTsEnumConstReferences`: for every sibling TS file, collect the
references of each Constant/Variable symbol with the requested name, an
uppercase first character and a passing `isTsEnumConst` check. -/
def findTsEnumConstReferences (ws : Workspace) (tsFiles : List Nat)
    (constName : Str) : List Loc :=
  getUniqueLocations <| tsFiles.flatMap fun tsFile =>
    match ws.symbolsOf tsFile with
    | none => []
    | some symbols =>
      symbols.flatMap fun symbol =>
        if (symbol.kind == SKind.Constant || symbol.kind == SKind.Variable) &&
            symbol.name == constName && firstUnitCaseUpper symbol.name then
          if !isTsEnumConst ws tsFile symbol then []
          else (ws.refsAt tsFile symbol.selRange.first).getD []
        else []

/-- `findGoEnumConstReferences`: Constant-kind symbols validated with
`isGoEnumConst`. -/
def findGoEnumConstReferences (ws : Workspace) (goFiles : List Nat)
    (constName : Str) : List Loc :=
  getUniqueLocations <| goFiles.flatMap fun goFile =>
    match ws.symbolsOf goFile with
    | none => []
    | some symbols =>
      symbols.flatMap fun symbol =>
        if symbol.kind == SKind.Constant && symbol.name == constName &&
            firstUnitCaseUpper symbol.name then
          if !isGoEnumConst ws goFile symbol then []
          else (ws.refsAt goFile symbol.selRange.first).getD []
        else []

/-- One alternative of `(string|int\d*|uint\d*|float\d+|bool|byte|rune)` at
the head of `s`. -/
def goTypeAliasKeywordAt (s : Str) : Bool :=
  (str "string").isPrefixOf s || (str "int").isPrefixOf s ||
  (str "uint").isPrefixOf s ||
  ((str "float").isPrefixOf s &&
    (match s.drop 5 with | c :: _ => isDigitCU c | [] => false)) ||
  (str "bool").isPrefixOf s || (str "byte").isPrefixOf s ||
  (str "rune").isPrefixOf s

/-- Match of `type\s+\w+\s*=\s*(string|...)` anchored at the head of `s`. -/
def goTypeAliasAt (s : Str) : Bool :=
  match eatKw (str "type") s with
  | none => false
  | some r1 =>
    match eatSpaces1 r1 with
    | none => false
    | some r2 =>
      match r2.takeWhile isWordChar with
      | [] => false
      | w =>
        match (r2.drop w.length).dropWhile isJsSpace with
        | 61 :: r4 => goTypeAliasKeywordAt (r4.dropWhile isJsSpace)
        | _ => false

/-- Test of
`/type\s+\w+\s*=\s*(string|int\d*|uint\d*|float\d+|bool|byte|rune)/`. -/
def goTypeAliasLine : Str → Bool
  | [] => false
  | c :: rest => goTypeAliasAt (c :: rest) || goTypeAliasLine rest

/-- `findGoEnumTypeReferences`: Class- or Interface-kind symbols with the
requested name whose declaration line is a primitive type alias. -/
def findGoEnumTypeReferences (ws : Workspace) (goFiles : List Nat)
    (typeName : Str) : List Loc :=
  getUniqueLocations <| goFiles.flatMap fun goFile =>
    match ws.symbolsOf goFile with
    | none => []
    | some symbols =>
      symbols.flatMap fun symbol =>
        if (symbol.kind == SKind.Class || symbol.kind == SKind.Interface) &&
            symbol.name == typeName && firstUnitCaseUpper symbol.name then
          if goTypeAliasLine (ws.lineAt goFile symbol.range.first.line) then
            (ws.refsAt goFile symbol.selRange.first).getD []
          else []
        else []

/-- Match of `export\s+type\s+NAME\s*=` anchored at the head of `s`. -/
def tsTypeDefAt (typeName s : Str) : Bool :=
  match eatKw (str "export") s with
  | none => false
  | some r1 =>
    match eatSpaces1 r1 with
    | none => false
    | some r2 =>
      match eatKw (str "type") r2 with
      | none => false
      | some r3 =>
        match eatSpaces1 r3 with
        | none => false
        | some r4 =>
          match eatKw typeName r4 with
          | none => false
          | some r5 =>
            match r5.dropWhile isJsSpace with
            | 61 :: _ => true
            | _ => false

/-- Test of the dynamic regex `export\s+type\s+NAME\s*=`. -/
def tsTypeDefLine (typeName : Str) : Str → Bool
  | [] => false
  | c :: rest => tsTypeDefAt typeName (c :: rest) || tsTypeDefLine typeName rest

/-- Match of `typeof\s+NAME[A-Z]` anchored at the head of `s`. -/
def tsTypeofAt (typeName s : Str) : Bool :=
  match eatKw (str "typeof") s with
  | none => false
  | some r1 =>
    match eatSpaces1 r1 with
    | none => false
    | some r2 =>
      match eatKw typeName r2 with
      | none => false
      | some r3 =>
        match r3 with
        | c :: _ => 65 ≤ c && c ≤ 90
        | [] => false

/-- Test of the dynamic regex `typeof\s+NAME[A-Z]`. -/
def tsTypeofTest (typeName : Str) : Str → Bool
  | [] => false
  | c :: rest => tsTypeofAt typeName (c :: rest) || tsTypeofTest typeName rest

/-- Test of `/^\s*\|/`. -/
def pipeAtStart (line : Str) : Bool :=
  match line.dropWhile isJsSpace with
  | 124 :: _ => true
  | _ => false

/-- Test of `/\|\s*$/`. -/
def pipeAtEnd (line : Str) : Bool :=
  match line.reverse.dropWhile isJsSpace with
  | 124 :: _ => true
  | _ => false

/-- `String.prototype.indexOf` for a pattern string. -/
def indexOfSeq (pat : Str) : Str → Option Nat
  | [] => if pat.isEmpty then some 0 else none
  | c :: rest =>
    if pat.isPrefixOf (c :: rest) then some 0
    else (indexOfSeq pat rest).map (· + 1)

/-- The `foundTypeofPattern` test of `findTsEnumTypeReferences`: the pattern
on the definition line itself, or on the following line when that one starts
or ends with a union `|`. -/
def tsTypeofToggle (ws : Workspace) (tsFile : Nat) (typeName : Str)
    (lineIndex : Nat) : Bool :=
  tsTypeofTest typeName (ws.lineAt tsFile lineIndex) ||
  (decide (lineIndex + 1 < ws.lineCountOf tsFile) &&
    tsTypeofTest typeName (ws.lineAt tsFile (lineIndex + 1)) &&
    (pipeAtStart (ws.lineAt tsFile (lineIndex + 1)) ||
      pipeAtEnd (ws.lineAt tsFile (lineIndex + 1))))

/-- Per-file line loop of `findTsEnumTypeReferences`: find the first line
defining `export type NAME = ...` with a `typeof NAME<Uppercase>` pattern on
the same or following line, and collect the references at the type name's
position (a line whose padded name cannot be located is skipped; the loop
breaks after the first collected definition). -/
def tsEnumTypeScanLines (ws : Workspace) (tsFile : Nat) (typeName : Str) :
    Nat → Nat → List Loc
  | 0, _ => []
  | remaining + 1, lineIndex =>
    if tsTypeDefLine typeName (ws.lineAt tsFile lineIndex) then
      if tsTypeofToggle ws tsFile typeName lineIndex then
        match indexOfSeq (32 :: (typeName ++ [32])) (ws.lineAt tsFile lineIndex) with
        | none => tsEnumTypeScanLines ws tsFile typeName remaining (lineIndex + 1)
        | some idx => (ws.refsAt tsFile ⟨lineIndex, idx + 1⟩).getD []
      else tsEnumTypeScanLines ws tsFile typeName remaining (lineIndex + 1)
    else tsEnumTypeScanLines ws tsFile typeName remaining (lineIndex + 1)

/-- `findTsEnumTypeReferences`. -/
def findTsEnumTypeReferences (ws : Workspace) (tsFiles : List Nat)
    (typeName : Str) : List Loc :=
  getUniqueLocations <| tsFiles.flatMap fun tsFile =>
    tsEnumTypeScanLines ws tsFile typeName (ws.lineCountOf tsFile) 0

/-- `findGoEnumTypeAtPosition`. -/
def findGoEnumTypeAtPosition (ws : Workspace) (fileUri : Nat) (position : Pos)
    (symbols : List DocSymbol) : Option EnumTypeInfo :=
  symbols.findSome? fun symbol =>
    if symbol.kind == SKind.Class || symbol.kind == SKind.Interface then
      if rngContainsPos symbol.selRange position ||
          rngContainsPos symbol.range position then
        if goTypeAliasLine (ws.lineAt fileUri symbol.range.first.line) &&
            firstCharIsUppercaseLetter symbol.name then
          some ⟨symbol.name, symbol, fileUri, true⟩
        else none
      else none
    else none

/-- Match of `export\s+type\s+(\w+)\s*=` anchored at the head of `s`,
returning the captured name. -/
def tsExportTypeCaptureAt (s : Str) : Option Str :=
  match eatKw (str "export") s with
  | none => none
  | some r1 =>
    match eatSpaces1 r1 with
    | none => none
    | some r2 =>
      match eatKw (str "type") r2 with
      | none => none
      | some r3 =>
        match eatSpaces1 r3 with
        | none => none
        | some r4 =>
          match r4.takeWhile isWordChar with
          | [] => none
          | w =>
            match (r4.drop w.length).dropWhile isJsSpace with
            | 61 :: _ => some w
            | _ => none

/-- Leftmost match of `/export\s+type\s+(\w+)\s*=/` in a line. -/
def tsExportTypeCapture : Str → Option Str
  | [] => none
  | c :: rest =>
    match tsExportTypeCaptureAt (c :: rest) with
    | some w => some w
    | none => tsExportTypeCapture rest

/-- `findTsEnumTypeAtPosition`: the cursor line must define an exported type
with a `typeof` union (same or next line); the type's symbol is looked up by
name, or synthesised from the line when absent. -/
def findTsEnumTypeAtPosition (ws : Workspace) (fileUri : Nat) (position : Pos)
    (symbols : List DocSymbol) : Option EnumTypeInfo :=
  match tsExportTypeCapture (ws.lineAt fileUri position.line) with
  | none => none
  | some typeName =>
    if tsTypeofToggle ws fileUri typeName position.line then
      match symbols.find? fun symbol => symbol.name == typeName with
      | some symbol => some ⟨symbol.name, symbol, fileUri, true⟩
      | none =>
        some ⟨typeName,
          DocSymbol.node 0 typeName SKind.Class
            (lineRng position.line 0 (ws.lineAt fileUri position.line).length)
            (lineRng position.line 0 (ws.lineAt fileUri position.line).length) [],
          fileUri, true⟩
    else none

/-- Go file 0, line 0: the const-block entry `StatusActive Status = "active"`. -/
def demoGoConstSym : DocSymbol :=
  DocSymbol.node 30 (str "StatusActive") SKind.Constant (lineRng 0 1 32)
    (lineRng 0 1 13) []

/-- Workspace for the enum-constant witness. -/
def enumWs : Workspace where
  symbolsOf f := if f == 0 then some [demoGoConstSym] else none
  lineAt f l :=
    if f == 0 && l == 0 then str "\tStatusActive Status = \x22active\x22" else []
  lineCountOf _ := 1
  refsAt _ _ := some []
  implsAt _ _ := some []
  defsAt _ _ := some []
  goFilesOf _ := [0]
  tsFilesOf _ := [1]
  langOf f := if f == 0 then Lang.go else Lang.typescript
  strictExport := false

/-! ## Cross-language request pipelines (src/reference/finder.ts,
src/implementation/finder.ts, src/implementation/provider.ts) -/

/-- `InterfaceInfo`. -/
structure InterfaceInfo where
  name : Str
  symbol : DocSymbol
  fileUri : Nat
  isExported : Bool
  hasMethods : Bool

/-- `InterfaceMethodInfo`. -/
structure InterfaceMethodInfo where
  name : Str
  parentSymbol : DocSymbol
  methodSymbol : DocSymbol
  fileUri : Nat
  isExported : Bool

/-- `SymbolInfo`. -/
structure SymbolInfo where
  name : Str
  kind : SKind
  location : Loc
  isExported : Bool

/-- `DeclarationInfo`. -/
structure DeclarationInfo where
  location : Loc
  kind : SKind

/-- The position classifiers of the six categories and the two
interface-level sub-matchers (`findCorrespondingInterface`,
`findCorrespondingInterfaceMethod`), abstracted as oracles; the
cross-language facts assumed about the two sub-matchers appear as hypotheses
of the theorems below. -/
structure Resolvers where
  enumTypeInfoAt : Nat → Pos → Option EnumTypeInfo
  enumConstInfoAt : Nat → Pos → Option EnumConstInfo
  interfaceInfoAt : Nat → Pos → Option InterfaceInfo
  methodInfoAt : Nat → Pos → Option InterfaceMethodInfo
  fieldInfoAt : Nat → Pos → Option FieldInfo
  symbolInfoAt : Nat → Pos → Option SymbolInfo
  symbolNameAt : Nat → Pos → Option Str
  correspondingInterface : InterfaceInfo → Lang → Option InterfaceInfo
  correspondingMethod : InterfaceMethodInfo → Lang → Option InterfaceMethodInfo

/-- `findCorrespondingField` (src/utils.ts): route by source language. -/
def findCorrespondingField (ws : Workspace) (fieldInfo : FieldInfo)
    (sourceLanguage : Lang) : Option FieldInfo :=
  if sourceLanguage == Lang.go then findTsPropertyForGoField ws fieldInfo
  else if sourceLanguage == Lang.typescript ||
      sourceLanguage == Lang.typescriptreact then
    findGoFieldForTsProperty ws fieldInfo
  else none

/-- `findEnumConstReferences` (src/reference/finder.ts). -/
def findEnumConstReferences (ws : Workspace) (constantInfo : EnumConstInfo)
    (sourceLanguage : Lang) : List Loc :=
  if sourceLanguage == Lang.go then
    if (ws.tsFilesOf constantInfo.fileUri).isEmpty then []
    else findTsEnumConstReferences ws (ws.tsFilesOf constantInfo.fileUri)
      constantInfo.name
  else if sourceLanguage == Lang.typescript ||
      sourceLanguage == Lang.typescriptreact then
    if (ws.goFilesOf constantInfo.fileUri).isEmpty then []
    else findGoEnumConstReferences ws (ws.goFilesOf constantInfo.fileUri)
      constantInfo.name
  else []

/-- `findEnumTypeReferences` (src/reference/finder.ts). -/
def findEnumTypeReferences (ws : Workspace) (typeInfo : EnumTypeInfo)
    (sourceLanguage : Lang) : List Loc :=
  if sourceLanguage == Lang.go then
    if (ws.tsFilesOf typeInfo.fileUri).isEmpty then []
    else findTsEnumTypeReferences ws (ws.tsFilesOf typeInfo.fileUri) typeInfo.name
  else if sourceLanguage == Lang.typescript ||
      sourceLanguage == Lang.typescriptreact then
    if (ws.goFilesOf typeInfo.fileUri).isEmpty then []
    else findGoEnumTypeReferences ws (ws.goFilesOf typeInfo.fileUri) typeInfo.name
  else []

/-- `findFieldReferences`: references of the corresponding field. -/
def findFieldReferences (ws : Workspace) (fieldInfo : FieldInfo)
    (sourceLanguage : Lang) : List Loc :=
  match findCorrespondingField ws fieldInfo sourceLanguage with
  | none => []
  | some corr => (ws.refsAt corr.fileUri corr.fieldSymbol.selRange.first).getD []

/-- `findInterfaceReferences`: references of the corresponding interface. -/
def findInterfaceReferences (ws : Workspace) (rs : Resolvers)
    (interfaceInfo : InterfaceInfo) (sourceLanguage : Lang) : List Loc :=
  match rs.correspondingInterface interfaceInfo sourceLanguage with
  | none => []
  | some corr => (ws.refsAt corr.fileUri corr.symbol.selRange.first).getD []

/-- `findInterfaceMethodReferences`. -/
def findInterfaceMethodReferences (ws : Workspace) (rs : Resolvers)
    (methodInfo : InterfaceMethodInfo) (sourceLanguage : Lang) : List Loc :=
  match rs.correspondingMethod methodInfo sourceLanguage with
  | none => []
  | some corr => (ws.refsAt corr.fileUri corr.methodSymbol.selRange.first).getD []

/-- `findGoReferences`: capitalized-first search names over the sibling Go
files. -/
def findGoReferences (ws : Workspace) (tsFileUri : Nat) (symbolName : Str)
    (isSourceExported : Bool) (symbolKind : SKind) : List Loc :=
  if (ws.goFilesOf tsFileUri).isEmpty then []
  else findSymbolReferencesInGoFiles ws (ws.goFilesOf tsFileUri)
    (goStructSearchNames symbolName) isSourceExported symbolKind

/-- `findTsReferences`: lowercased-first search names over the sibling TS
files. -/
def findTsReferences (ws : Workspace) (goFileUri : Nat) (symbolName : Str)
    (isSourceExported : Bool) (symbolKind : SKind) : List Loc :=
  if (ws.tsFilesOf goFileUri).isEmpty then []
  else findSymbolReferencesInTsFiles ws (ws.tsFilesOf goFileUri)
    (tsInterfaceSearchNames symbolName) isSourceExported symbolKind

/-- `findSymbolReferences` (src/reference/finder.ts). -/
def findSymbolReferences (ws : Workspace) (symbolInfo : SymbolInfo)
    (sourceLanguage : Lang) : List Loc :=
  if sourceLanguage == Lang.typescript ||
      sourceLanguage == Lang.typescriptreact then
    findGoReferences ws symbolInfo.location.file symbolInfo.name
      symbolInfo.isExported symbolInfo.kind
  else if sourceLanguage == Lang.go then
    findTsReferences ws symbolInfo.location.file symbolInfo.name
      symbolInfo.isExported symbolInfo.kind
  else []

/-- `findReferences` (src/reference/finder.ts): run the six classifiers in
order and dispatch to the first category that matches. -/
def findReferences (ws : Workspace) (rs : Resolvers) (docFile : Nat)
    (position : Pos) : List Loc :=
  match rs.enumTypeInfoAt docFile position with
  | some enumTypeInfo => findEnumTypeReferences ws enumTypeInfo (ws.langOf docFile)
  | none =>
    match rs.enumConstInfoAt docFile position with
    | some constInfo => findEnumConstReferences ws constInfo (ws.langOf docFile)
    | none =>
      match rs.interfaceInfoAt docFile position with
      | some interfaceInfo =>
        findInterfaceReferences ws rs interfaceInfo (ws.langOf docFile)
      | none =>
        match rs.methodInfoAt docFile position with
        | some methodInfo =>
          findInterfaceMethodReferences ws rs methodInfo (ws.langOf docFile)
        | none =>
          match rs.fieldInfoAt docFile position with
          | some fieldInfo => findFieldReferences ws fieldInfo (ws.langOf docFile)
          | none =>
            match rs.symbolInfoAt docFile position with
            | some symbolInfo => findSymbolReferences ws symbolInfo (ws.langOf docFile)
            | none => []

/-- `findSymbolAtLocation` (src/utils.ts): a function / struct / interface
whose selection range contains the position, searched recursively. -/
def findSymbolAtLocation : List DocSymbol → Pos → Option DocSymbol
  | [], _ => none
  | DocSymbol.node i n k r sr cs :: rest, position =>
    if (k == SKind.Function || k == SKind.Struct || k == SKind.Interface) &&
        rngContainsPos sr position then
      some (DocSymbol.node i n k r sr cs)
    else
      match findSymbolAtLocation cs position with
      | some found => some found
      | none => findSymbolAtLocation rest position

/-- `findDeclarationLocationViaReferences` (src/utils.ts): look for a
declaration among the reference provider's results, falling back to the
first reference with kind Function. -/
def findDeclarationLocationViaReferences (ws : Workspace) (docFile : Nat)
    (position : Pos) (symbolName : Str) : Option DeclarationInfo :=
  match ws.refsAt docFile position with
  | none => none
  | some [] => none
  | some (r0 :: rest) =>
    match (r0 :: rest).findSome? fun ref =>
      match ws.symbolsOf ref.file with
      | none => none
      | some symbols =>
        match findSymbolAtLocation symbols ⟨ref.line, ref.col⟩ with
        | none => none
        | some decl =>
          if decl.name == symbolName then
            some (⟨⟨ref.file, decl.selRange.first.line, decl.selRange.first.col⟩,
              decl.kind⟩ : DeclarationInfo)
          else none with
    | some d => some d
    | none => some ⟨r0, SKind.Function⟩

/-- `isSymbolExported` (src/utils.ts): name casing for Go; for TypeScript
the `export` prefix of the declaration line of the symbol found by kind,
name and position. -/
def isSymbolExported (ws : Workspace) (fileUri : Nat) (position : Pos)
    (symbolName : Str) (languageId : Lang) (symbolKind : Option SKind) : Bool :=
  if languageId == Lang.go then isGoSymbolExported symbolName
  else if languageId == Lang.typescript ||
      languageId == Lang.typescriptreact then
    match ws.symbolsOf fileUri with
    | none => false
    | some symbols =>
      match symbols.findSome? fun symbol =>
        if (match symbolKind with
            | none => true
            | some k => symbol.kind == k) &&
            symbol.name == symbolName && rngContainsPos symbol.range position then
          some (tsExportLine (ws.lineAt fileUri symbol.range.first.line))
        else none with
      | some b => b
      | none => false
  else false

/-- `findGoDeclaration` (src/implementation/finder.ts). -/
def findGoDeclaration (ws : Workspace) (tsFileUri : Nat) (symbolName : Str)
    (isSourceExported : Bool) (symbolKind : SKind) : List Loc :=
  if (ws.goFilesOf tsFileUri).isEmpty then []
  else findSymbolDeclarationInGoFiles ws (ws.goFilesOf tsFileUri)
    (goStructSearchNames symbolName) isSourceExported symbolKind

/-- `findTsDeclaration` (src/implementation/finder.ts). -/
def findTsDeclaration (ws : Workspace) (goFileUri : Nat) (symbolName : Str)
    (isSourceExported : Bool) (symbolKind : SKind) : List Loc :=
  if (ws.tsFilesOf goFileUri).isEmpty then []
  else findSymbolDeclarationInTsFiles ws (ws.tsFilesOf goFileUri)
    (tsInterfaceSearchNames symbolName) isSourceExported symbolKind

/-- `findInterfaceImplementations`: the corresponding interface's own
declaration first, then the native implementation provider's results at it
(both source languages query the provider at the corresponding interface). -/
def findInterfaceImplementations (ws : Workspace) (rs : Resolvers)
    (interfaceInfo : InterfaceInfo) (sourceLanguage : Lang) : List Loc :=
  match rs.correspondingInterface interfaceInfo sourceLanguage with
  | none => []
  | some corr =>
    symbolLoc corr.fileUri corr.symbol ::
      (if sourceLanguage == Lang.go then
        (ws.implsAt corr.fileUri corr.symbol.selRange.first).getD []
      else if sourceLanguage == Lang.typescript ||
          sourceLanguage == Lang.typescriptreact then
        (ws.implsAt corr.fileUri corr.symbol.selRange.first).getD []
      else [])

/-- The `isExported` computed by `findImplementations` for a resolved
declaration. -/
def declIsExported (ws : Workspace) (docFile : Nat) (symbolName : Str)
    (d : DeclarationInfo) : Bool :=
  isSymbolExported ws d.location.file ⟨d.location.line, d.location.col⟩
    symbolName (ws.langOf docFile) (some d.kind)

/-- The Go branch of `findImplementations`: TypeScript declarations plus,
for a Struct with non-empty results, the native implementation provider's
results at each found TS interface. -/
def tsDeclWithStructExpansion (ws : Workspace) (goFileUri : Nat)
    (symbolName : Str) (isExported : Bool) (symbolKind : SKind) : List Loc :=
  findTsDeclaration ws goFileUri symbolName isExported symbolKind ++
    (if symbolKind == SKind.Struct &&
        !(findTsDeclaration ws goFileUri symbolName isExported symbolKind).isEmpty then
      (findTsDeclaration ws goFileUri symbolName isExported symbolKind).flatMap
        fun tsLoc => (ws.implsAt tsLoc.file ⟨tsLoc.line, tsLoc.col⟩).getD []
    else [])

/-- `findImplementations` after the symbol name and declaration have been
resolved: drop unexported structs/interfaces, then search the other
language's sibling files. -/
def findImplementationsResolved (ws : Workspace) (docFile : Nat)
    (symbolName : Str) (d : DeclarationInfo) : List Loc :=
  if (d.kind == SKind.Struct || d.kind == SKind.Interface) &&
      !(declIsExported ws docFile symbolName d) then []
  else if ws.langOf docFile == Lang.typescript ||
      ws.langOf docFile == Lang.typescriptreact then
    findGoDeclaration ws d.location.file symbolName
      (declIsExported ws docFile symbolName d) d.kind
  else if ws.langOf docFile == Lang.go then
    tsDeclWithStructExpansion ws d.location.file symbolName
      (declIsExported ws docFile symbolName d) d.kind
  else []

/-- Non-interface path of `findImplementations`: take the provided
declaration or resolve one from the cursor. -/
def findImplementationsSymbolPath (ws : Workspace) (rs : Resolvers)
    (docFile : Nat) (position : Pos)
    (known : Option (Loc × SKind × Str)) : List Loc :=
  match known with
  | some (loc, kind, name) => findImplementationsResolved ws docFile name ⟨loc, kind⟩
  | none =>
    match rs.symbolNameAt docFile position with
    | none => []
    | some symbolName =>
      match findDeclarationLocationViaReferences ws docFile position symbolName with
      | none => []
      | some d => findImplementationsResolved ws docFile symbolName d

/-- `findImplementations` (src/implementation/finder.ts). -/
def findImplementations (ws : Workspace) (rs : Resolvers) (docFile : Nat)
    (position : Pos) (known : Option (Loc × SKind × Str)) : List Loc :=
  match rs.interfaceInfoAt docFile position with
  | some interfaceInfo =>
    if interfaceInfo.hasMethods then
      findInterfaceImplementations ws rs interfaceInfo (ws.langOf docFile)
    else findImplementationsSymbolPath ws rs docFile position known
  | none => findImplementationsSymbolPath ws rs docFile position known

/-- `findSymbolAtCursor` (src/implementation/provider.ts): any symbol whose
selection range contains the position, searched recursively. -/
def findSymbolAtCursor : List DocSymbol → Pos → Option DocSymbol
  | [], _ => none
  | DocSymbol.node i n k r sr cs :: rest, position =>
    if rngContainsPos sr position then some (DocSymbol.node i n k r sr cs)
    else
      match findSymbolAtCursor cs position with
      | some found => some found
      | none => findSymbolAtCursor rest position

/-- Declaration lookup in the requesting Go document's own symbol tree. -/
def goCurrentDeclaration (ws : Workspace) (docFile : Nat) (position : Pos)
    (symbolName : Str) : Option (Loc × SKind) :=
  match ws.symbolsOf docFile with
  | none => none
  | some symbols =>
    match findSymbolAtCursor symbols position with
    | none => none
    | some currentSymbol =>
      if (currentSymbol.kind == SKind.Function ||
          currentSymbol.kind == SKind.Struct ||
          currentSymbol.kind == SKind.Interface) &&
          currentSymbol.name == symbolName then
        some (symbolLoc docFile currentSymbol, currentSymbol.kind)
      else none

/-- Declaration lookup through the definition provider, with the raw first
definition as a fallback location. -/
def goDefinitionDeclaration (ws : Workspace) (docFile : Nat) (position : Pos) :
    List Loc × Option (Loc × SKind × Str) :=
  match ws.defsAt docFile position with
  | none => ([], none)
  | some [] => ([], none)
  | some (d0 :: _) =>
    match ws.symbolsOf d0.file with
    | none => ([], none)
    | some defSymbols =>
      match findSymbolAtCursor defSymbols ⟨d0.line, d0.col⟩ with
      | some defSymbol =>
        if defSymbol.kind == SKind.Function || defSymbol.kind == SKind.Struct ||
            defSymbol.kind == SKind.Interface then
          ([symbolLoc d0.file defSymbol],
            some (symbolLoc d0.file defSymbol, defSymbol.kind, defSymbol.name))
        else ([d0], none)
      | none => ([d0], none)

/-- The Go preamble of `provideImplementation`: the same-language
declaration locations it pushes and the `knownDeclaration` it passes on. -/
def goKnownDeclaration (ws : Workspace) (rs : Resolvers) (docFile : Nat)
    (position : Pos) : List Loc × Option (Loc × SKind × Str) :=
  match rs.symbolNameAt docFile position with
  | none => ([], none)
  | some symbolName =>
    match goCurrentDeclaration ws docFile position symbolName with
    | some (loc, kind) => ([loc], some (loc, kind, symbolName))
    | none => goDefinitionDeclaration ws docFile position

/-- Body of `provideImplementation` (inside the guard and try): the
same-language preamble (Go: the requesting symbol's own declaration;
TypeScript: the native implementation provider's results), then the
cross-language `findImplementations`; `null` when nothing was collected. -/
def provideImplementationCore (ws : Workspace) (rs : Resolvers) (docFile : Nat)
    (position : Pos) : Option (List Loc) :=
  match
    (if ws.langOf docFile == Lang.go then
      (goKnownDeclaration ws rs docFile position).1
    else (ws.implsAt docFile position).getD []) ++
    findImplementations ws rs docFile position
      (if ws.langOf docFile == Lang.go then
        (goKnownDeclaration ws rs docFile position).2
      else none) with
  | [] => none
  | l => some l

/-! ## Concrete inputs and claim theorems for the produced interface -/

/-- Go file 0, lines 0-3: `type Article struct { ... }`. -/
def demoGoArticleStruct : DocSymbol :=
  DocSymbol.node 40 (str "Article") SKind.Struct ⟨⟨0, 0⟩, ⟨3, 1⟩⟩ (lineRng 0 5 12) []

/-- A directory holding only the Go file 0 with the `Article` struct. -/
def implWs : Workspace where
  symbolsOf f := if f == 0 then some [demoGoArticleStruct] else none
  lineAt _ _ := []
  lineCountOf f := if f == 0 then 4 else 0
  refsAt _ _ := none
  implsAt _ _ := none
  defsAt _ _ := none
  goFilesOf _ := [0]
  tsFilesOf _ := []
  langOf f := if f == 0 then Lang.go else Lang.other
  strictExport := false

/-- Classifiers for `implWs`: the cursor resolves the symbol name
`Article`; every category classifier misses. -/
def implRs : Resolvers where
  enumTypeInfoAt _ _ := none
  enumConstInfoAt _ _ := none
  interfaceInfoAt _ _ := none
  methodInfoAt _ _ := none
  fieldInfoAt _ _ := none
  symbolInfoAt _ _ := none
  symbolNameAt f _ := if f == 0 then some (str "Article") else none
  correspondingInterface _ _ := none
  correspondingMethod _ _ := none

/-- Classifiers for `demoWs`: the cursor on TS file 1 resolves to the
function symbol `getArticle`. -/
def demoRs : Resolvers where
  enumTypeInfoAt _ _ := none
  enumConstInfoAt _ _ := none
  interfaceInfoAt _ _ := none
  methodInfoAt _ _ := none
  fieldInfoAt _ _ := none
  symbolInfoAt f _ := if f == 1 then
    some ⟨str "getArticle", SKind.Function, ⟨1, 0, 16⟩, true⟩ else none
  symbolNameAt _ _ := none
  correspondingInterface _ _ := none
  correspondingMethod _ _ := none

/-! ## Theorems -/

theorem jsUpperChar_ascii (c : Nat) (h : c < 128) :
    jsUpperChar c = [asciiUpper c] := by
  unfold jsUpperChar asciiUpper
  split_ifs <;> first | rfl | omega

theorem jsLowerChar_ascii (c : Nat) (h : c < 128) :
    jsLowerChar c = [asciiLower c] := by
  unfold jsLowerChar asciiLower
  split_ifs <;> first | rfl | omega

theorem asciiUpper_lt (c : Nat) (h : c < 128) : asciiUpper c < 128 := by
  unfold asciiUpper
  split_ifs <;> omega

theorem asciiLower_lt (c : Nat) (h : c < 128) : asciiLower c < 128 := by
  unfold asciiLower
  split_ifs <;> omega

theorem asciiLower_asciiUpper (c : Nat) :
    asciiLower (asciiUpper c) = asciiLower c := by
  unfold asciiUpper asciiLower
  split_ifs <;> omega

theorem asciiUpper_asciiLower (c : Nat) :
    asciiUpper (asciiLower c) = asciiUpper c := by
  unfold asciiUpper asciiLower
  split_ifs <;> omega

theorem asciiUpper_idem (c : Nat) : asciiUpper (asciiUpper c) = asciiUpper c := by
  unfold asciiUpper
  split_ifs <;> omega

theorem asciiLower_idem (c : Nat) : asciiLower (asciiLower c) = asciiLower c := by
  unfold asciiLower
  split_ifs <;> omega

/-- C7 counterexample: JS uppercases `ß` (U+00DF) to the two-unit string
`SS`, so for `n` = "ßx" the conversion changes more than the casing of the
first character and the round-trip fails:
`lowercaseFirstLetter (capitalizeFirstLetter n)` is "sSx" while
`lowercaseFirstLetter n` is "ßx". -/
theorem c7_roundtrip_counterexample :
    capitalizeFirstLetter (str "ßx") = str "SSx" ∧
    lowercaseFirstLetter (capitalizeFirstLetter (str "ßx")) ≠
      lowercaseFirstLetter (str "ßx") := by
  constructor
  · rfl
  · decide

/-- C7 (amended): for every name whose first code unit is ASCII — in
particular every ASCII identifier —
`lowercaseFirstLetter (capitalizeFirstLetter n) = lowercaseFirstLetter n` and
`capitalizeFirstLetter (lowercaseFirstLetter n) = capitalizeFirstLetter n`;
there both conversions are idempotent and touch only the first code unit. -/
theorem c7_ascii_roundtrip (n : Str)
    (h : n.head?.all (fun c => decide (c < 128)) = true) :
    lowercaseFirstLetter (capitalizeFirstLetter n) = lowercaseFirstLetter n ∧
    capitalizeFirstLetter (lowercaseFirstLetter n) = capitalizeFirstLetter n ∧
    capitalizeFirstLetter (capitalizeFirstLetter n) = capitalizeFirstLetter n ∧
    lowercaseFirstLetter (lowercaseFirstLetter n) = lowercaseFirstLetter n ∧
    (capitalizeFirstLetter n).tail = n.tail ∧
    (lowercaseFirstLetter n).tail = n.tail := by
  cases n with
  | nil => exact ⟨rfl, rfl, rfl, rfl, rfl, rfl⟩
  | cons c rest =>
    have hc : c < 128 := of_decide_eq_true h
    have e1 : capitalizeFirstLetter (c :: rest) = asciiUpper c :: rest := by
      show jsUpperChar c ++ rest = asciiUpper c :: rest
      rw [jsUpperChar_ascii c hc]
      rfl
    have e2 : lowercaseFirstLetter (c :: rest) = asciiLower c :: rest := by
      show jsLowerChar c ++ rest = asciiLower c :: rest
      rw [jsLowerChar_ascii c hc]
      rfl
    have e3 : capitalizeFirstLetter (asciiLower c :: rest) =
        asciiUpper (asciiLower c) :: rest := by
      show jsUpperChar (asciiLower c) ++ rest = asciiUpper (asciiLower c) :: rest
      rw [jsUpperChar_ascii _ (asciiLower_lt c hc)]
      rfl
    have e4 : lowercaseFirstLetter (asciiUpper c :: rest) =
        asciiLower (asciiUpper c) :: rest := by
      show jsLowerChar (asciiUpper c) ++ rest = asciiLower (asciiUpper c) :: rest
      rw [jsLowerChar_ascii _ (asciiUpper_lt c hc)]
      rfl
    have e5 : capitalizeFirstLetter (asciiUpper c :: rest) =
        asciiUpper (asciiUpper c) :: rest := by
      show jsUpperChar (asciiUpper c) ++ rest = asciiUpper (asciiUpper c) :: rest
      rw [jsUpperChar_ascii _ (asciiUpper_lt c hc)]
      rfl
    have e6 : lowercaseFirstLetter (asciiLower c :: rest) =
        asciiLower (asciiLower c) :: rest := by
      show jsLowerChar (asciiLower c) ++ rest = asciiLower (asciiLower c) :: rest
      rw [jsLowerChar_ascii _ (asciiLower_lt c hc)]
      rfl
    refine ⟨?_, ?_, ?_, ?_, ?_, ?_⟩
    · rw [e1, e4, e2, asciiLower_asciiUpper]
    · rw [e2, e3, e1, asciiUpper_asciiLower]
    · rw [e1, e5, asciiUpper_idem]
    · rw [e2, e6, asciiLower_idem]
    · rw [e1]
      rfl
    · rw [e2]
      rfl

theorem c7_ascii_roundtrip_witness :
    lowercaseFirstLetter (capitalizeFirstLetter (str "getArticle")) =
      lowercaseFirstLetter (str "getArticle") :=
  (c7_ascii_roundtrip (str "getArticle") (by decide)).1

/-- C9 (code-bug evidence): the valid, unexported Go identifier `_x` is
reported as exported by `isGoSymbolExported`, although its first character is
not an uppercase letter — the implementation tests
`firstChar === firstChar.toUpperCase()`, which also accepts caseless
characters such as `_` and digits, contradicting the function's own doc
comment "(starts with uppercase letter)". -/
theorem c9_goExported_underscore_bug :
    isGoSymbolExported (str "_x") = true ∧
    firstCharIsUppercaseLetter (str "_x") = false := by
  constructor <;> rfl

theorem mem_getUniqueLocationsAux (x : Loc) (locs seen : List Loc) :
    x ∈ getUniqueLocationsAux locs seen ↔ x ∈ locs ∧ x ∉ seen := by
  induction locs generalizing seen with
  | nil => simp [getUniqueLocationsAux]
  | cons l rest ih =>
    by_cases h : l ∈ seen
    · simp only [getUniqueLocationsAux, if_pos h, ih, List.mem_cons]
      constructor
      · rintro ⟨hx, hs⟩
        exact ⟨Or.inr hx, hs⟩
      · rintro ⟨hx | hx, hs⟩
        · exact absurd (hx ▸ h) hs
        · exact ⟨hx, hs⟩
    · simp only [getUniqueLocationsAux, if_neg h, List.mem_cons, ih]
      constructor
      · rintro (rfl | ⟨hx, hs⟩)
        · exact ⟨Or.inl rfl, h⟩
        · exact ⟨Or.inr hx, fun hmem => hs (Or.inr hmem)⟩
      · rintro ⟨rfl | hx, hs⟩
        · exact Or.inl rfl
        · by_cases hxl : x = l
          · exact Or.inl hxl
          · refine Or.inr ⟨hx, fun hmem => ?_⟩
            rcases hmem with h1 | h2
            · exact hxl h1
            · exact hs h2

theorem mem_getUniqueLocations (x : Loc) (locs : List Loc) :
    x ∈ getUniqueLocations locs ↔ x ∈ locs := by
  simp [getUniqueLocations, mem_getUniqueLocationsAux]

theorem goStructFileCandidates_mem (symbols : List DocSymbol) (f : Nat)
    (targets : List Str) (c : SymbolCandidate) :
    c ∈ goStructFileCandidates symbols f targets ↔
      ∃ s ∈ symbols, s.kind = SKind.Struct ∧ s.name ∈ targets ∧
        isGoSymbolExported s.name = true ∧
        c = ⟨s, f, if targets.head? = some s.name then 100 else 90⟩ := by
  simp only [goStructFileCandidates, List.mem_filterMap]
  constructor
  · rintro ⟨s, hsmem, hs⟩
    split at hs
    case isFalse h1 => cases hs
    case isTrue h1 =>
      split at hs
      case isTrue h2 => cases hs
      case isFalse h2 =>
        injection hs with h
        subst h
        simp only [Bool.and_eq_true, beq_iff_eq] at h1
        refine ⟨s, hsmem, h1.1, by simpa using h1.2, by simpa using h2, ?_⟩
        simp only [SymbolCandidate.mk.injEq, true_and]
        by_cases hex : targets.head? = some s.name <;> simp [hex]
  · rintro ⟨s, hsmem, hk, hcont, hexp, rfl⟩
    refine ⟨s, hsmem, ?_⟩
    rw [if_pos (by simp [hk, hcont]), if_neg (by simp [hexp])]
    simp only [Option.some.injEq, SymbolCandidate.mk.injEq, true_and]
    by_cases hex : targets.head? = some s.name <;> simp [hex]

theorem tsInterfaceFileCandidates_mem (ws : Workspace) (symbols : List DocSymbol)
    (f : Nat) (targets : List Str) (c : SymbolCandidate) :
    c ∈ tsInterfaceFileCandidates ws symbols f targets ↔
      ∃ s ∈ symbols, s.kind = SKind.Interface ∧ s.name ∈ targets ∧
        tsExportLine (ws.lineAt f s.range.first.line) = true ∧
        c = ⟨s, f, if targets.head? = some s.name then 100 else 90⟩ := by
  simp only [tsInterfaceFileCandidates, List.mem_filterMap]
  constructor
  · rintro ⟨s, hsmem, hs⟩
    split at hs
    case isFalse h1 => cases hs
    case isTrue h1 =>
      split at hs
      case isTrue h2 => cases hs
      case isFalse h2 =>
        injection hs with h
        subst h
        simp only [Bool.and_eq_true, beq_iff_eq] at h1
        refine ⟨s, hsmem, h1.1, by simpa using h1.2, by simpa using h2, ?_⟩
        simp only [SymbolCandidate.mk.injEq, true_and]
        by_cases hex : targets.head? = some s.name <;> simp [hex]
  · rintro ⟨s, hsmem, hk, hcont, hexp, rfl⟩
    refine ⟨s, hsmem, ?_⟩
    rw [if_pos (by simp [hk, hcont]), if_neg (by simp [hexp])]
    simp only [Option.some.injEq, SymbolCandidate.mk.injEq, true_and]
    by_cases hex : targets.head? = some s.name <;> simp [hex]

theorem goFunctionFileCandidates_mem (symbols : List DocSymbol) (f : Nat)
    (targets : List Str) (src strict : Bool) (c : SymbolCandidate) :
    c ∈ goFunctionFileCandidates symbols f targets src strict ↔
      ∃ s ∈ symbols, s.kind = SKind.Function ∧ s.name ∈ targets ∧
        isTopLevelFunction s symbols = true ∧
        ¬(strict = true ∧ src ≠ isGoSymbolExported s.name) ∧
        c = ⟨s, f, calculateMatchScore s.name targets (isGoSymbolExported s.name) src⟩ := by
  simp only [goFunctionFileCandidates, List.mem_filterMap]
  constructor
  · rintro ⟨s, hsmem, hs⟩
    split at hs
    case isFalse h1 => cases hs
    case isTrue h1 =>
      split at hs
      case isTrue h2 => cases hs
      case isFalse h2 =>
        injection hs with h
        subst h
        simp only [Bool.and_eq_true, beq_iff_eq] at h1
        refine ⟨s, hsmem, h1.1.1, by simpa using h1.1.2, h1.2, ?_, rfl⟩
        intro ⟨hstrict, hdiff⟩
        exact h2 (by simp [hstrict, bne_iff_ne, hdiff])
  · rintro ⟨s, hsmem, hk, hcont, htop, hnd, rfl⟩
    refine ⟨s, hsmem, ?_⟩
    rw [if_pos (by simp [hk, hcont, htop])]
    rw [if_neg ?_]
    intro hstr
    simp only [Bool.and_eq_true, bne_iff_ne] at hstr
    exact hnd ⟨hstr.1, hstr.2⟩

theorem tsFunctionFileCandidates_mem (ws : Workspace) (symbols : List DocSymbol)
    (f : Nat) (targets : List Str) (src strict : Bool) (c : SymbolCandidate) :
    c ∈ tsFunctionFileCandidates ws symbols f targets src strict ↔
      ∃ s ∈ symbols, s.kind = SKind.Function ∧ s.name ∈ targets ∧
        isTopLevelFunction s symbols = true ∧
        ¬(strict = true ∧ src ≠ tsExportLine (ws.lineAt f s.range.first.line)) ∧
        c = ⟨s, f, calculateMatchScore s.name targets
              (tsExportLine (ws.lineAt f s.range.first.line)) src⟩ := by
  simp only [tsFunctionFileCandidates, List.mem_filterMap]
  constructor
  · rintro ⟨s, hsmem, hs⟩
    split at hs
    case isFalse h1 => cases hs
    case isTrue h1 =>
      split at hs
      case isTrue h2 => cases hs
      case isFalse h2 =>
        injection hs with h
        subst h
        simp only [Bool.and_eq_true, beq_iff_eq] at h1
        refine ⟨s, hsmem, h1.1.1, by simpa using h1.1.2, h1.2, ?_, rfl⟩
        intro ⟨hstrict, hdiff⟩
        exact h2 (by simp [hstrict, bne_iff_ne, hdiff])
  · rintro ⟨s, hsmem, hk, hcont, htop, hnd, rfl⟩
    refine ⟨s, hsmem, ?_⟩
    rw [if_pos (by simp [hk, hcont, htop])]
    rw [if_neg ?_]
    intro hstr
    simp only [Bool.and_eq_true, bne_iff_ne] at hstr
    exact hnd ⟨hstr.1, hstr.2⟩

/-- Membership in a sorted scan result, reduced to membership in some scanned
file's per-file candidates. -/
theorem mem_sorted_flatMap (g : Nat → List SymbolCandidate) (files : List Nat)
    (c : SymbolCandidate) :
    c ∈ sortByScoreDesc (files.flatMap g) ↔ ∃ f ∈ files, c ∈ g f := by
  unfold sortByScoreDesc
  rw [(List.perm_insertionSort candGE (files.flatMap g)).mem_iff]
  exact List.mem_flatMap

/-- C3: the function score is 3 exactly when the candidate name equals the
first accepted name and the export flags agree, 2 when only the flags agree,
1 when only the name is exact, 0 otherwise; struct/interface candidates score
100 on exact first-name match and 90 otherwise; and the scores order the
three quality tiers strictly. -/
theorem c3_match_score (name : Str) (targets : List Str)
    (candExp srcExp : Bool) (ws : Workspace) (files : List Nat) :
    (calculateMatchScore name targets candExp srcExp = 3 ↔
      targets.head? = some name ∧ srcExp = candExp) ∧
    (calculateMatchScore name targets candExp srcExp = 2 ↔
      targets.head? ≠ some name ∧ srcExp = candExp) ∧
    (calculateMatchScore name targets candExp srcExp = 1 ↔
      targets.head? = some name ∧ srcExp ≠ candExp) ∧
    (calculateMatchScore name targets candExp srcExp = 0 ↔
      targets.head? ≠ some name ∧ srcExp ≠ candExp) ∧
    (∀ c ∈ findGoStructForTsInterfaceViaMatching ws files targets,
      c.score = if targets.head? = some c.symbol.name then 100 else 90) ∧
    (∀ c ∈ findTsInterfaceForGoStructViaMatching ws files targets,
      c.score = if targets.head? = some c.symbol.name then 100 else 90) ∧
    (∀ name1 targets1 exp1 src1 name2 targets2 exp2 src2,
      targets1.head? = some name1 → src1 = exp1 →
      (targets2.head? = some name2 ∧ src2 ≠ exp2 ∨
       targets2.head? ≠ some name2 ∧ src2 = exp2) →
      calculateMatchScore name2 targets2 exp2 src2 <
        calculateMatchScore name1 targets1 exp1 src1) ∧
    (∀ name1 targets1 exp1 src1 name2 targets2 exp2 src2,
      (targets1.head? = some name1 ∧ src1 ≠ exp1 ∨
       targets1.head? ≠ some name1 ∧ src1 = exp1) →
      targets2.head? ≠ some name2 → src2 ≠ exp2 →
      calculateMatchScore name2 targets2 exp2 src2 <
        calculateMatchScore name1 targets1 exp1 src1) := by
  refine ⟨?_, ?_, ?_, ?_, ?_, ?_, ?_, ?_⟩
  case _ =>
    simp only [calculateMatchScore]
    constructor
    · intro h
      by_cases h1 : (srcExp == candExp) && (targets.head? == some name)
      · simp only [Bool.and_eq_true, beq_iff_eq] at h1
        exact ⟨h1.2, h1.1⟩
      · simp only [if_neg h1] at h
        split_ifs at h <;> omega
    · rintro ⟨h1, h2⟩
      simp [h1, h2]
  case _ =>
    simp only [calculateMatchScore]
    constructor
    · intro h
      by_cases hsa : srcExp = candExp
      · by_cases hex : targets.head? = some name
        · simp [hsa, hex] at h
        · exact ⟨hex, hsa⟩
      · by_cases hex : targets.head? = some name
        · simp [hsa, hex] at h
        · simp [hsa, hex] at h
    · rintro ⟨h1, h2⟩
      simp [h1, h2]
  case _ =>
    simp only [calculateMatchScore]
    constructor
    · intro h
      by_cases hsa : srcExp = candExp
      · by_cases hex : targets.head? = some name
        · simp [hsa, hex] at h
        · simp [hsa, hex] at h
      · by_cases hex : targets.head? = some name
        · exact ⟨hex, hsa⟩
        · simp [hsa, hex] at h
    · rintro ⟨h1, h2⟩
      simp [h1, h2]
  case _ =>
    simp only [calculateMatchScore]
    constructor
    · intro h
      by_cases hsa : srcExp = candExp
      · by_cases hex : targets.head? = some name
        · simp [hsa, hex] at h
        · simp [hsa, hex] at h
      · by_cases hex : targets.head? = some name
        · simp [hsa, hex] at h
        · exact ⟨hex, hsa⟩
    · rintro ⟨h1, h2⟩
      simp [h1, h2]
  case _ =>
    intro c hc
    rcases (mem_sorted_flatMap _ files c).mp hc with ⟨f, _, hcf⟩
    revert hcf
    cases ws.symbolsOf f with
    | none => simp
    | some symbols =>
      intro hcf
      rcases (goStructFileCandidates_mem symbols f targets c).mp hcf with
        ⟨s, _, _, _, _, rfl⟩
      rfl
  case _ =>
    intro c hc
    rcases (mem_sorted_flatMap _ files c).mp hc with ⟨f, _, hcf⟩
    revert hcf
    cases ws.symbolsOf f with
    | none => simp
    | some symbols =>
      intro hcf
      rcases (tsInterfaceFileCandidates_mem ws symbols f targets c).mp hcf with
        ⟨s, _, _, _, _, rfl⟩
      rfl
  case _ =>
    intro n1 t1 e1 s1 n2 t2 e2 s2 hex1 hsa1 hcase
    have h1 : calculateMatchScore n1 t1 e1 s1 = 3 := by
      simp [calculateMatchScore, hex1, hsa1]
    rcases hcase with ⟨hex2, hsa2⟩ | ⟨hex2, hsa2⟩
    · have h2 : calculateMatchScore n2 t2 e2 s2 = 1 := by
        simp [calculateMatchScore, hex2, hsa2]
      omega
    · have h2 : calculateMatchScore n2 t2 e2 s2 = 2 := by
        simp [calculateMatchScore, hex2, hsa2]
      omega
  case _ =>
    intro n1 t1 e1 s1 n2 t2 e2 s2 hcase hex2 hsa2
    have h2 : calculateMatchScore n2 t2 e2 s2 = 0 := by
      simp [calculateMatchScore, hex2, hsa2]
    rcases hcase with ⟨hex1, hsa1⟩ | ⟨hex1, hsa1⟩
    · have h1 : calculateMatchScore n1 t1 e1 s1 = 1 := by
        simp [calculateMatchScore, hex1, hsa1]
      omega
    · have h1 : calculateMatchScore n1 t1 e1 s1 = 2 := by
        simp [calculateMatchScore, hex1, hsa1]
      omega

/-! ## Sortedness and maximum score -/

theorem sorted_sortByScoreDesc (l : List SymbolCandidate) :
    (sortByScoreDesc l).Sorted candGE :=
  List.sorted_insertionSort candGE l

theorem sorted_findMatchingSymbolsInGoFiles (ws : Workspace) (files : List Nat)
    (names : List Str) (srcExp : Bool) (kind : SKind) (strict : Bool) :
    (findMatchingSymbolsInGoFiles ws files names srcExp kind strict).Sorted candGE := by
  unfold findMatchingSymbolsInGoFiles findGoFunctionForTsFunctionViaMatching
    findGoStructForTsInterfaceViaMatching
  split_ifs <;> first | exact sorted_sortByScoreDesc _ | exact List.sorted_nil

theorem sorted_findMatchingSymbolsInTsFiles (ws : Workspace) (files : List Nat)
    (names : List Str) (srcExp : Bool) (kind : SKind) (strict : Bool) :
    (findMatchingSymbolsInTsFiles ws files names srcExp kind strict).Sorted candGE := by
  unfold findMatchingSymbolsInTsFiles findTsFunctionForGoFunctionViaMatching
    findTsInterfaceForGoStructViaMatching
  split_ifs <;> first | exact sorted_sortByScoreDesc _ | exact List.sorted_nil

theorem score_le_maxScore :
    ∀ {l : List SymbolCandidate} {c : SymbolCandidate}, c ∈ l → c.score ≤ maxScore l := by
  intro l
  induction l with
  | nil => intro c h; cases h
  | cons a t ih =>
    intro c h
    rcases List.mem_cons.mp h with rfl | h'
    · exact Nat.le_max_left _ _
    · exact Nat.le_trans (ih h') (Nat.le_max_right _ _)

theorem maxScore_le :
    ∀ {l : List SymbolCandidate} {b : Nat}, (∀ c ∈ l, c.score ≤ b) → maxScore l ≤ b := by
  intro l
  induction l with
  | nil => intro b _; exact Nat.zero_le b
  | cons a t ih =>
    intro b h
    have h1 := h a (List.mem_cons_self _ _)
    have h2 := ih fun c hc => h c (List.mem_cons_of_mem _ hc)
    exact Nat.max_le.mpr ⟨h1, h2⟩

theorem head_score_eq_maxScore (best : SymbolCandidate) (rest : List SymbolCandidate)
    (h : ∀ c ∈ rest, c.score ≤ best.score) :
    maxScore (best :: rest) = best.score := by
  have h1 : best.score ≤ maxScore (best :: rest) :=
    score_le_maxScore (List.mem_cons_self _ _)
  have h2 : maxScore (best :: rest) ≤ best.score := by
    refine maxScore_le fun c hc => ?_
    rcases List.mem_cons.mp hc with rfl | hc'
    · exact Nat.le_refl _
    · exact h c hc'
  omega

theorem sorted_head_bound {best : SymbolCandidate} {rest : List SymbolCandidate}
    (hs : (best :: rest).Sorted candGE) :
    ∀ c ∈ best :: rest, c.score ≤ best.score := by
  intro c hc
  rcases List.mem_cons.mp hc with rfl | hc'
  · exact Nat.le_refl _
  · exact (List.sorted_cons.mp hs).1 c hc'

theorem collectBestRefs_mem (ws : Workspace) (b : Nat)
    (cands : List SymbolCandidate) (hs : cands.Sorted candGE)
    (hb : ∀ c ∈ cands, c.score ≤ b) (loc : Loc) :
    loc ∈ collectBestRefs ws b cands ↔
      ∃ c ∈ cands, c.score = b ∧
        loc ∈ (ws.refsAt c.fileUri c.symbol.selRange.first).getD [] := by
  induction cands with
  | nil => simp [collectBestRefs]
  | cons a t ih =>
    rcases List.sorted_cons.mp hs with ⟨ha, ht⟩
    by_cases hscore : a.score = b
    · rw [collectBestRefs, if_neg (by simp [hscore])]
      rw [List.mem_append, ih ht fun c hc => hb c (List.mem_cons_of_mem _ hc)]
      constructor
      · rintro (h | ⟨c, hc, hcs, hl⟩)
        · exact ⟨a, List.mem_cons_self _ _, hscore, h⟩
        · exact ⟨c, List.mem_cons_of_mem _ hc, hcs, hl⟩
      · rintro ⟨c, hc, hcs, hl⟩
        rcases List.mem_cons.mp hc with rfl | hc'
        · exact Or.inl hl
        · exact Or.inr ⟨c, hc', hcs, hl⟩
    · rw [collectBestRefs, if_pos (by simpa using hscore)]
      simp only [List.not_mem_nil, false_iff]
      rintro ⟨c, hc, hcs, _⟩
      rcases List.mem_cons.mp hc with rfl | hc'
      · exact hscore hcs
      · have h1 : c.score ≤ a.score := ha c hc'
        have h2 : a.score ≤ b := hb a (List.mem_cons_self _ _)
        omega

theorem filter_best_mem (best : SymbolCandidate) (rest : List SymbolCandidate)
    (hs : (best :: rest).Sorted candGE) (c : SymbolCandidate) :
    (c ∈ (best :: rest).filter fun d => d.score == best.score) ↔
      c ∈ best :: rest ∧ c.score = maxScore (best :: rest) := by
  have hmax : maxScore (best :: rest) = best.score :=
    head_score_eq_maxScore best rest fun c hc =>
      (List.sorted_cons.mp hs).1 c hc
  rw [List.mem_filter, hmax]
  simp

/-- C1: in every symbol reference / implementation aggregation, the
candidates that contribute to the returned locations are exactly those whose
score equals the maximum score present in the candidate list: the
declaration variants return the declaration of every maximum-score candidate
and of no other, and the reference variants collect the reference-provider
results of every maximum-score candidate and of no other. -/
theorem c1_top_tier_selection (ws : Workspace) (files : List Nat)
    (names : List Str) (srcExp : Bool) (kind : SKind) (loc : Loc) :
    (loc ∈ findSymbolDeclarationInGoFiles ws files names srcExp kind ↔
      ∃ c ∈ findMatchingSymbolsInGoFiles ws files names srcExp kind ws.strictExport,
        c.score = maxScore (findMatchingSymbolsInGoFiles ws files names srcExp kind
          ws.strictExport) ∧ loc = symbolLoc c.fileUri c.symbol) ∧
    (loc ∈ findSymbolDeclarationInTsFiles ws files names srcExp kind ↔
      ∃ c ∈ findMatchingSymbolsInTsFiles ws files names srcExp kind ws.strictExport,
        c.score = maxScore (findMatchingSymbolsInTsFiles ws files names srcExp kind
          ws.strictExport) ∧ loc = symbolLoc c.fileUri c.symbol) ∧
    (loc ∈ findSymbolReferencesInGoFiles ws files names srcExp kind ↔
      ∃ c ∈ findMatchingSymbolsInGoFiles ws files names srcExp kind ws.strictExport,
        c.score = maxScore (findMatchingSymbolsInGoFiles ws files names srcExp kind
          ws.strictExport) ∧
        loc ∈ (ws.refsAt c.fileUri c.symbol.selRange.first).getD []) ∧
    (loc ∈ findSymbolReferencesInTsFiles ws files names srcExp kind ↔
      ∃ c ∈ findMatchingSymbolsInTsFiles ws files names srcExp kind ws.strictExport,
        c.score = maxScore (findMatchingSymbolsInTsFiles ws files names srcExp kind
          ws.strictExport) ∧
        loc ∈ (ws.refsAt c.fileUri c.symbol.selRange.first).getD []) := by
  have hgs := sorted_findMatchingSymbolsInGoFiles ws files names srcExp kind ws.strictExport
  have hts := sorted_findMatchingSymbolsInTsFiles ws files names srcExp kind ws.strictExport
  refine ⟨?_, ?_, ?_, ?_⟩
  · unfold findSymbolDeclarationInGoFiles
    cases h : findMatchingSymbolsInGoFiles ws files names srcExp kind ws.strictExport with
    | nil => simp
    | cons best rest =>
      rw [h] at hgs
      simp only [List.mem_map]
      constructor
      · rintro ⟨c, hc, rfl⟩
        rcases (filter_best_mem best rest hgs c).mp hc with ⟨hcm, hcs⟩
        exact ⟨c, hcm, hcs, rfl⟩
      · rintro ⟨c, hcm, hcs, rfl⟩
        exact ⟨c, (filter_best_mem best rest hgs c).mpr ⟨hcm, hcs⟩, rfl⟩
  · unfold findSymbolDeclarationInTsFiles
    cases h : findMatchingSymbolsInTsFiles ws files names srcExp kind ws.strictExport with
    | nil => simp
    | cons best rest =>
      rw [h] at hts
      simp only [List.mem_map]
      constructor
      · rintro ⟨c, hc, rfl⟩
        rcases (filter_best_mem best rest hts c).mp hc with ⟨hcm, hcs⟩
        exact ⟨c, hcm, hcs, rfl⟩
      · rintro ⟨c, hcm, hcs, rfl⟩
        exact ⟨c, (filter_best_mem best rest hts c).mpr ⟨hcm, hcs⟩, rfl⟩
  · unfold findSymbolReferencesInGoFiles
    cases h : findMatchingSymbolsInGoFiles ws files names srcExp kind ws.strictExport with
    | nil => simp
    | cons best rest =>
      rw [h] at hgs
      have hb := sorted_head_bound hgs
      rw [mem_getUniqueLocations,
        collectBestRefs_mem ws best.score (best :: rest) hgs hb loc,
        head_score_eq_maxScore best rest fun c hc => (List.sorted_cons.mp hgs).1 c hc]
  · unfold findSymbolReferencesInTsFiles
    cases h : findMatchingSymbolsInTsFiles ws files names srcExp kind ws.strictExport with
    | nil => simp
    | cons best rest =>
      rw [h] at hts
      have hb := sorted_head_bound hts
      rw [mem_getUniqueLocations,
        collectBestRefs_mem ws best.score (best :: rest) hts hb loc,
        head_score_eq_maxScore best rest fun c hc => (List.sorted_cons.mp hts).1 c hc]

/-- C10: every candidate list returned by `findMatchingSymbolsInGoFiles` and
`findMatchingSymbolsInTsFiles` is sorted in non-increasing score order, and
for every non-empty result the first element's score is the maximum of all
scores in the list. -/
theorem c10_scan_sorted_head_max (ws : Workspace) (files : List Nat)
    (names : List Str) (srcExp : Bool) (kind : SKind) (strict : Bool) :
    (findMatchingSymbolsInGoFiles ws files names srcExp kind strict).Sorted candGE ∧
    (findMatchingSymbolsInTsFiles ws files names srcExp kind strict).Sorted candGE ∧
    (∀ best, (findMatchingSymbolsInGoFiles ws files names srcExp kind
        strict).head? = some best →
      best.score = maxScore (findMatchingSymbolsInGoFiles ws files names srcExp
        kind strict)) ∧
    (∀ best, (findMatchingSymbolsInTsFiles ws files names srcExp kind
        strict).head? = some best →
      best.score = maxScore (findMatchingSymbolsInTsFiles ws files names srcExp
        kind strict)) := by
  have hgs := sorted_findMatchingSymbolsInGoFiles ws files names srcExp kind strict
  have hts := sorted_findMatchingSymbolsInTsFiles ws files names srcExp kind strict
  refine ⟨hgs, hts, ?_, ?_⟩
  · intro best hhead
    cases h : findMatchingSymbolsInGoFiles ws files names srcExp kind strict with
    | nil => rw [h] at hhead; cases hhead
    | cons b rest =>
      rw [h] at hhead hgs
      cases hhead
      exact (head_score_eq_maxScore _ rest fun c hc =>
        (List.sorted_cons.mp hgs).1 c hc).symm
  · intro best hhead
    cases h : findMatchingSymbolsInTsFiles ws files names srcExp kind strict with
    | nil => rw [h] at hhead; cases hhead
    | cons b rest =>
      rw [h] at hhead hts
      cases hhead
      exact (head_score_eq_maxScore _ rest fun c hc =>
        (List.sorted_cons.mp hts).1 c hc).symm

/-- C2: struct-kind and interface-kind candidates are accepted only if they
are exported (Go: name casing, TS: `export` line prefix) — the struct scans
do not even consume the strict-export setting — while a function-kind
candidate that passes the kind / name / top-level tests is dropped for
export mismatch if and only if strict mode is enabled and its export flag
differs from the source symbol's. -/
theorem c2_export_rules (ws : Workspace) (files : List Nat) (names : List Str)
    (src strict : Bool) :
    (∀ c ∈ findGoStructForTsInterfaceViaMatching ws files names,
      isGoSymbolExported c.symbol.name = true) ∧
    (∀ c ∈ findTsInterfaceForGoStructViaMatching ws files names,
      tsExportLine (ws.lineAt c.fileUri c.symbol.range.first.line) = true) ∧
    (∀ symbols f s, s ∈ symbols → s.kind = SKind.Function → s.name ∈ names →
      isTopLevelFunction s symbols = true →
      ((⟨s, f, calculateMatchScore s.name names (isGoSymbolExported s.name) src⟩ :
          SymbolCandidate) ∈ goFunctionFileCandidates symbols f names src strict ↔
        ¬(strict = true ∧ src ≠ isGoSymbolExported s.name))) ∧
    (∀ symbols f s, s ∈ symbols → s.kind = SKind.Function → s.name ∈ names →
      isTopLevelFunction s symbols = true →
      ((⟨s, f, calculateMatchScore s.name names
            (tsExportLine (ws.lineAt f s.range.first.line)) src⟩ :
          SymbolCandidate) ∈ tsFunctionFileCandidates ws symbols f names src strict ↔
        ¬(strict = true ∧ src ≠ tsExportLine (ws.lineAt f s.range.first.line)))) := by
  refine ⟨?_, ?_, ?_, ?_⟩
  · intro c hc
    rcases (mem_sorted_flatMap _ files c).mp hc with ⟨f, _, hcf⟩
    revert hcf
    cases ws.symbolsOf f with
    | none => simp
    | some symbols =>
      intro hcf
      rcases (goStructFileCandidates_mem symbols f names c).mp hcf with
        ⟨s, _, _, _, hexp, rfl⟩
      exact hexp
  · intro c hc
    rcases (mem_sorted_flatMap _ files c).mp hc with ⟨f, _, hcf⟩
    revert hcf
    cases ws.symbolsOf f with
    | none => simp
    | some symbols =>
      intro hcf
      rcases (tsInterfaceFileCandidates_mem ws symbols f names c).mp hcf with
        ⟨s, _, _, _, hexp, rfl⟩
      exact hexp
  · intro symbols f s hmem hk hname htop
    constructor
    · intro hc
      rcases (goFunctionFileCandidates_mem symbols f names src strict _).mp hc with
        ⟨s', _, _, _, _, hnd, heq⟩
      injection heq with h1 _ _
      exact h1 ▸ hnd
    · intro hnd
      exact (goFunctionFileCandidates_mem symbols f names src strict _).mpr
        ⟨s, hmem, hk, hname, htop, hnd, rfl⟩
  · intro symbols f s hmem hk hname htop
    constructor
    · intro hc
      rcases (tsFunctionFileCandidates_mem ws symbols f names src strict _).mp hc with
        ⟨s', _, _, _, _, hnd, heq⟩
      injection heq with h1 _ _
      exact h1 ▸ hnd
    · intro hnd
      exact (tsFunctionFileCandidates_mem ws symbols f names src strict _).mpr
        ⟨s, hmem, hk, hname, htop, hnd, rfl⟩

theorem c2_export_rules_witness :
    (⟨demoGoFuncSym, 0, calculateMatchScore (str "GetArticle")
        [str "GetArticle"] (isGoSymbolExported (str "GetArticle")) true⟩ :
      SymbolCandidate) ∈
      goFunctionFileCandidates [demoGoFuncSym] 0 [str "GetArticle"] true true :=
  ((c2_export_rules demoWs [0] [str "GetArticle"] true true).2.2.1
      [demoGoFuncSym] 0 demoGoFuncSym (List.mem_singleton.mpr rfl) rfl
      (List.mem_singleton.mpr rfl) (by decide)).mpr
    (by decide)

theorem c3_match_score_witness :
    calculateMatchScore (str "GetArticle") [str "GetArticle"] false true <
      calculateMatchScore (str "getArticle") [str "getArticle"] true true :=
  (c3_match_score (str "x") [] true true demoWs []).2.2.2.2.2.2.1
    (str "getArticle") [str "getArticle"] true true
    (str "GetArticle") [str "GetArticle"] false true rfl rfl
    (Or.inl (by decide))

theorem c10_scan_sorted_head_max_witness :
    (⟨demoGoFuncSym, 0, 3⟩ : SymbolCandidate).score =
      maxScore (findMatchingSymbolsInGoFiles demoWs [0] [str "GetArticle"] true
        SKind.Function false) :=
  (c10_scan_sorted_head_max demoWs [0] [str "GetArticle"] true
      SKind.Function false).2.2.1 ⟨demoGoFuncSym, 0, 3⟩ rfl

theorem jsonTagCaptureAt_ne_some_nil (s : Str) : jsonTagCaptureAt s ≠ some [] := by
  unfold jsonTagCaptureAt
  cases eatKw (str "json:\x22") s with
  | none => simp
  | some rest =>
    simp only []
    split_ifs with h
    · simp
    · intro hc
      injection hc with hc
      exact h (by rw [hc]; rfl)

theorem jsonTagCapture_ne_some_nil : ∀ (line : Str), jsonTagCapture line ≠ some [] := by
  intro line
  induction line with
  | nil => simp [jsonTagCapture]
  | cons c rest ih =>
    unfold jsonTagCapture
    cases h : jsonTagCaptureAt (c :: rest) with
    | none => simpa using ih
    | some tag =>
      simp only [Option.some.injEq]
      intro hc
      exact jsonTagCaptureAt_ne_some_nil (c :: rest) (hc ▸ h)

theorem goFieldByTag_spec (ws : Workspace) (goFile : Nat) (parent : DocSymbol)
    (propName : Str) (fi : FieldInfo)
    (h : goFieldByTag ws goFile parent propName = some fi) :
    fi.jsonTag = some propName ∧ fi.parentSymbol = parent ∧ fi.fileUri = goFile := by
  rcases List.exists_of_findSome?_eq_some h with ⟨child, _, hchild⟩
  revert hchild
  split_ifs with h1 h2
  · intro hc
    injection hc with hc
    subst hc
    exact ⟨by simpa using h2, rfl, rfl⟩
  · intro hc; cases hc
  · intro hc; cases hc

theorem goFieldByTag_none (ws : Workspace) (goFile : Nat) (parent : DocSymbol)
    (propName : Str) (h : goFieldByTag ws goFile parent propName = none) :
    ∀ child ∈ parent.children,
      (child.kind = SKind.Field ∨ child.kind = SKind.Property) →
      extractJsonTagFromGoField ws goFile child ≠ some propName := by
  intro child hmem hkind htag
  have hnone := List.findSome?_eq_none_iff.mp h child hmem
  rw [if_pos (by rcases hkind with hk | hk <;> simp [hk]),
    if_pos (by simpa using htag)] at hnone
  cases hnone

theorem goFieldByName_spec (ws : Workspace) (goFile : Nat) (parent : DocSymbol)
    (propName : Str) (fi : FieldInfo)
    (h : goFieldByName ws goFile parent propName = some fi) :
    fi.name = propName ∧ fi.parentSymbol = parent ∧ fi.fileUri = goFile := by
  rcases List.exists_of_findSome?_eq_some h with ⟨child, _, hchild⟩
  revert hchild
  split_ifs with h1
  · intro hc
    injection hc with hc
    subst hc
    simp only [Bool.and_eq_true, beq_iff_eq] at h1
    exact ⟨h1.2, rfl, rfl⟩
  · intro hc; cases hc

/-- C4: direction TS→Go searches each matching Go struct by JSON tag first
and falls back to the raw field name only when no field's tag matches — the
returned field either carries the searched tag, or matches by name in a
struct none of whose fields carries the tag; direction Go→TS uses the single
search key `jsonTag` when present (the extractor never produces an empty
tag) and the field name otherwise. -/
theorem c4_field_lookup_order (ws : Workspace) (tsInfo goInfo : FieldInfo)
    (fi : FieldInfo) :
    (findGoFieldForTsProperty ws tsInfo = some fi →
      fi.jsonTag = some tsInfo.name ∨
      (fi.name = tsInfo.name ∧ ∀ child ∈ fi.parentSymbol.children,
        (child.kind = SKind.Field ∨ child.kind = SKind.Property) →
        extractJsonTagFromGoField ws fi.fileUri child ≠ some tsInfo.name)) ∧
    (findTsPropertyForGoField ws goInfo = some fi →
      (∃ t, goInfo.jsonTag = some t ∧ t ≠ [] ∧ fi.name = t) ∨
      ((goInfo.jsonTag = none ∨ goInfo.jsonTag = some []) ∧
        fi.name = goInfo.name)) ∧
    (∀ fileUri fieldSymbol,
      extractJsonTagFromGoField ws fileUri fieldSymbol ≠ some []) := by
  refine ⟨?_, ?_, ?_⟩
  · intro h
    rw [findGoFieldForTsProperty] at h
    by_cases hempty : (ws.goFilesOf tsInfo.fileUri).isEmpty = true
    · rw [if_pos hempty] at h; cases h
    · rw [if_neg hempty] at h
      rcases List.exists_of_findSome?_eq_some h with ⟨goFile, _, hfile⟩
      revert hfile
      cases ws.symbolsOf goFile with
      | none => intro hc; cases hc
      | some symbols =>
        simp only []
        intro hfile
        rcases List.exists_of_findSome?_eq_some hfile with ⟨symbol, _, hsym⟩
        revert hsym
        split_ifs with h1
        · cases htag : goFieldByTag ws goFile symbol tsInfo.name with
          | some fi2 =>
            simp only [htag, Option.some.injEq]
            intro hc
            subst hc
            exact Or.inl (goFieldByTag_spec ws goFile symbol tsInfo.name fi2 htag).1
          | none =>
            simp only [htag]
            intro hname
            rcases goFieldByName_spec ws goFile symbol tsInfo.name fi hname with
              ⟨hn, hp, hf⟩
            refine Or.inr ⟨hn, ?_⟩
            rw [hp, hf]
            exact goFieldByTag_none ws goFile symbol tsInfo.name htag
        · intro hc; cases hc
  · intro h
    rw [findTsPropertyForGoField] at h
    by_cases hempty : (ws.tsFilesOf goInfo.fileUri).isEmpty = true
    · rw [if_pos hempty] at h; cases h
    · rw [if_neg hempty] at h
      rcases List.exists_of_findSome?_eq_some h with ⟨tsFile, _, hfile⟩
      revert hfile
      cases ws.symbolsOf tsFile with
      | none => intro hc; cases hc
      | some symbols =>
        simp only []
        intro hfile
        rcases List.exists_of_findSome?_eq_some hfile with ⟨symbol, _, hsym⟩
        revert hsym
        split_ifs with h1
        · intro hchild
          rcases List.exists_of_findSome?_eq_some hchild with ⟨child, _, hc⟩
          revert hc
          split_ifs with h2
          · intro hc
            injection hc with hc
            subst hc
            simp only [Bool.and_eq_true, beq_iff_eq] at h2
            have hname : child.name = propertySearchKey goInfo := h2.2
            cases htag : goInfo.jsonTag with
            | none =>
              refine Or.inr ⟨Or.inl rfl, ?_⟩
              simp only [FieldInfo.name] at hname ⊢
              rw [hname, propertySearchKey, htag]
            | some t =>
              cases t with
              | nil =>
                refine Or.inr ⟨Or.inr rfl, ?_⟩
                simp only [FieldInfo.name] at hname ⊢
                rw [hname, propertySearchKey, htag]
                rfl
              | cons a u =>
                refine Or.inl ⟨a :: u, rfl, by simp, ?_⟩
                simp only [FieldInfo.name] at hname ⊢
                rw [hname, propertySearchKey, htag]
                rfl
          · intro hc; cases hc
        · intro hc; cases hc
  · intro fileUri fieldSymbol
    exact jsonTagCapture_ne_some_nil _

theorem c4_field_lookup_order_witness :
    demoGoEmailFieldInfo.jsonTag = some demoTsEmailInfo.name ∨
    (demoGoEmailFieldInfo.name = demoTsEmailInfo.name ∧
      ∀ child ∈ demoGoEmailFieldInfo.parentSymbol.children,
        (child.kind = SKind.Field ∨ child.kind = SKind.Property) →
        extractJsonTagFromGoField fieldWs demoGoEmailFieldInfo.fileUri child ≠
          some demoTsEmailInfo.name) :=
  (c4_field_lookup_order fieldWs demoTsEmailInfo demoTsEmailInfo
    demoGoEmailFieldInfo).1 rfl

/-- C5 counterexample: the claim says one single shared flag guards both
operations, so a top-level request beginning while the flag is set (here: a
references request is in flight, so the in-flight flag is set) must return no
result immediately — but an implementation request issued in that state runs
its body and returns its result, because each provider module has its own
separate flag; symmetrically a references request is not blocked by an
in-flight implementation request. -/
theorem c5_shared_flag_counterexample :
    (provideImplementationRun ⟨true, false⟩ true true
        (Except.ok [⟨1, 2, 3⟩])).bodyRan = true ∧
    (provideImplementationRun ⟨true, false⟩ true true
        (Except.ok [⟨1, 2, 3⟩])).result = some [⟨1, 2, 3⟩] ∧
    (provideReferencesRun ⟨false, true⟩ true true
        (Except.ok [⟨1, 2, 3⟩])).bodyRan = true ∧
    (provideReferencesRun ⟨false, true⟩ true true
        (Except.ok [⟨1, 2, 3⟩])).result = some [⟨1, 2, 3⟩] := by
  refine ⟨rfl, rfl, rfl, rfl⟩

/-- C5 (amended): each of the two operations is guarded by its own
module-level boolean flag: a top-level request of the same operation that
begins while that flag is set returns no result immediately without touching
the state, and whenever the request body runs the operation's flag is true
during the body and false on every exit path (success, empty result and
exception alike), the other module's flag being untouched. -/
theorem c5_per_operation_guard (s : GuardState) (enabled langOk : Bool)
    (body : Except Unit (List Loc)) :
    (s.refProcessing = true →
      provideReferencesRun s enabled langOk body = ⟨[s], none, false⟩) ∧
    ((provideReferencesRun s enabled langOk body).bodyRan = true →
      (provideReferencesRun s enabled langOk body).states =
        [s, ⟨true, s.implProcessing⟩, ⟨false, s.implProcessing⟩]) ∧
    (s.implProcessing = true →
      provideImplementationRun s enabled langOk body = ⟨[s], none, false⟩) ∧
    ((provideImplementationRun s enabled langOk body).bodyRan = true →
      (provideImplementationRun s enabled langOk body).states =
        [s, ⟨s.refProcessing, true⟩, ⟨s.refProcessing, false⟩]) := by
  obtain ⟨r, i⟩ := s
  cases r <;> cases i <;> cases enabled <;> cases langOk <;> cases body <;>
    simp [provideReferencesRun, provideImplementationRun]

theorem c5_per_operation_guard_witness :
    provideReferencesRun ⟨true, false⟩ true true (Except.ok [⟨1, 2, 3⟩]) =
      ⟨[⟨true, false⟩], none, false⟩ ∧
    (provideImplementationRun ⟨false, false⟩ true true
        (Except.error ())).states =
      [⟨false, false⟩, ⟨false, true⟩, ⟨false, false⟩] :=
  ⟨(c5_per_operation_guard ⟨true, false⟩ true true (Except.ok [⟨1, 2, 3⟩])).1 rfl,
   (c5_per_operation_guard ⟨false, false⟩ true true (Except.error ())).2.2.2 rfl⟩

theorem findGoEnumConstAtPosition_validates (ws : Workspace) (fileUri : Nat)
    (position : Pos) (symbols : List DocSymbol) (info : EnumConstInfo)
    (h : findGoEnumConstAtPosition ws fileUri position symbols = some info) :
    isGoEnumConst ws fileUri info.constSymbol = true ∧
    info.name = info.constSymbol.name := by
  rcases List.exists_of_findSome?_eq_some h with ⟨symbol, _, hs⟩
  revert hs
  split_ifs with h1 h2 h3
  · intro hc; cases hc
  · intro hc
    injection hc with hc
    subst hc
    exact ⟨by simpa using h3, rfl⟩
  · intro hc; cases hc
  · intro hc; cases hc

theorem findTsEnumConstAtPosition_validates (ws : Workspace) (fileUri : Nat)
    (position : Pos) (symbols : List DocSymbol) (info : EnumConstInfo)
    (h : findTsEnumConstAtPosition ws fileUri position symbols = some info) :
    isTsEnumConst ws fileUri info.constSymbol = true ∧
    info.name = info.constSymbol.name := by
  rcases List.exists_of_findSome?_eq_some h with ⟨symbol, _, hs⟩
  revert hs
  split_ifs with h1 h2 h3
  · intro hc; cases hc
  · intro hc
    injection hc with hc
    subst hc
    exact ⟨by simpa using h3, rfl⟩
  · intro hc; cases hc
  · intro hc; cases hc

theorem findTsEnumConstReferences_mem (ws : Workspace) (tsFiles : List Nat)
    (constName : Str) (loc : Loc)
    (h : loc ∈ findTsEnumConstReferences ws tsFiles constName) :
    ∃ tsFile ∈ tsFiles, ∃ symbols, ws.symbolsOf tsFile = some symbols ∧
      ∃ symbol ∈ symbols,
        (symbol.kind = SKind.Constant ∨ symbol.kind = SKind.Variable) ∧
        symbol.name = constName ∧ isTsEnumConst ws tsFile symbol = true ∧
        loc ∈ (ws.refsAt tsFile symbol.selRange.first).getD [] := by
  rw [findTsEnumConstReferences, mem_getUniqueLocations] at h
  rcases List.mem_flatMap.mp h with ⟨tsFile, hf, hloc⟩
  refine ⟨tsFile, hf, ?_⟩
  revert hloc
  cases hsym : ws.symbolsOf tsFile with
  | none => simp
  | some symbols =>
    simp only []
    intro hloc
    refine ⟨symbols, rfl, ?_⟩
    rcases List.mem_flatMap.mp hloc with ⟨symbol, hs, hl⟩
    revert hl
    split_ifs with h1 h2
    · simp
    · intro hl
      simp only [Bool.and_eq_true, Bool.or_eq_true, beq_iff_eq] at h1
      exact ⟨symbol, hs, h1.1.1, h1.1.2, by simpa using h2, hl⟩
    · simp

theorem findGoEnumConstReferences_mem (ws : Workspace) (goFiles : List Nat)
    (constName : Str) (loc : Loc)
    (h : loc ∈ findGoEnumConstReferences ws goFiles constName) :
    ∃ goFile ∈ goFiles, ∃ symbols, ws.symbolsOf goFile = some symbols ∧
      ∃ symbol ∈ symbols, symbol.kind = SKind.Constant ∧
        symbol.name = constName ∧ isGoEnumConst ws goFile symbol = true ∧
        loc ∈ (ws.refsAt goFile symbol.selRange.first).getD [] := by
  rw [findGoEnumConstReferences, mem_getUniqueLocations] at h
  rcases List.mem_flatMap.mp h with ⟨goFile, hf, hloc⟩
  refine ⟨goFile, hf, ?_⟩
  revert hloc
  cases hsym : ws.symbolsOf goFile with
  | none => simp
  | some symbols =>
    simp only []
    intro hloc
    refine ⟨symbols, rfl, ?_⟩
    rcases List.mem_flatMap.mp hloc with ⟨symbol, hs, hl⟩
    revert hl
    split_ifs with h1 h2
    · simp
    · intro hl
      simp only [Bool.and_eq_true, beq_iff_eq] at h1
      exact ⟨symbol, hs, h1.1.1, h1.1.2, by simpa using h2, hl⟩
    · simp

theorem findGoEnumTypeReferences_mem (ws : Workspace) (goFiles : List Nat)
    (typeName : Str) (loc : Loc)
    (h : loc ∈ findGoEnumTypeReferences ws goFiles typeName) :
    ∃ goFile ∈ goFiles, ∃ symbols, ws.symbolsOf goFile = some symbols ∧
      ∃ symbol ∈ symbols,
        (symbol.kind = SKind.Class ∨ symbol.kind = SKind.Interface) ∧
        symbol.name = typeName ∧
        goTypeAliasLine (ws.lineAt goFile symbol.range.first.line) = true ∧
        loc ∈ (ws.refsAt goFile symbol.selRange.first).getD [] := by
  rw [findGoEnumTypeReferences, mem_getUniqueLocations] at h
  rcases List.mem_flatMap.mp h with ⟨goFile, hf, hloc⟩
  refine ⟨goFile, hf, ?_⟩
  revert hloc
  cases hsym : ws.symbolsOf goFile with
  | none => simp
  | some symbols =>
    simp only []
    intro hloc
    refine ⟨symbols, rfl, ?_⟩
    rcases List.mem_flatMap.mp hloc with ⟨symbol, hs, hl⟩
    revert hl
    split_ifs with h1 h2
    · intro hl
      simp only [Bool.and_eq_true, Bool.or_eq_true, beq_iff_eq] at h1
      exact ⟨symbol, hs, h1.1.1, h1.1.2, h2, hl⟩
    · simp
    · simp

theorem tsEnumTypeScanLines_mem (ws : Workspace) (tsFile : Nat)
    (typeName : Str) :
    ∀ (remaining lineIndex : Nat) (loc : Loc),
      loc ∈ tsEnumTypeScanLines ws tsFile typeName remaining lineIndex →
      ∃ li idx, tsTypeDefLine typeName (ws.lineAt tsFile li) = true ∧
        tsTypeofToggle ws tsFile typeName li = true ∧
        indexOfSeq (32 :: (typeName ++ [32])) (ws.lineAt tsFile li) = some idx ∧
        loc ∈ (ws.refsAt tsFile ⟨li, idx + 1⟩).getD [] := by
  intro remaining
  induction remaining with
  | zero => intro lineIndex loc h; cases h
  | succ n ih =>
    intro lineIndex loc h
    rw [tsEnumTypeScanLines] at h
    split_ifs at h with h1 h2
    · revert h
      cases hidx : indexOfSeq (32 :: (typeName ++ [32]))
          (ws.lineAt tsFile lineIndex) with
      | none => intro h; exact ih _ loc h
      | some idx => intro h; exact ⟨lineIndex, idx, h1, h2, hidx, h⟩
    · exact ih _ loc h
    · exact ih _ loc h

theorem findTsEnumTypeReferences_mem (ws : Workspace) (tsFiles : List Nat)
    (typeName : Str) (loc : Loc)
    (h : loc ∈ findTsEnumTypeReferences ws tsFiles typeName) :
    ∃ tsFile ∈ tsFiles, ∃ li idx,
      tsTypeDefLine typeName (ws.lineAt tsFile li) = true ∧
      tsTypeofToggle ws tsFile typeName li = true ∧
      indexOfSeq (32 :: (typeName ++ [32])) (ws.lineAt tsFile li) = some idx ∧
      loc ∈ (ws.refsAt tsFile ⟨li, idx + 1⟩).getD [] := by
  rw [findTsEnumTypeReferences, mem_getUniqueLocations] at h
  rcases List.mem_flatMap.mp h with ⟨tsFile, hf, hloc⟩
  exact ⟨tsFile, hf, tsEnumTypeScanLines_mem ws tsFile typeName _ 0 loc hloc⟩

theorem findGoEnumTypeAtPosition_validates (ws : Workspace) (fileUri : Nat)
    (position : Pos) (symbols : List DocSymbol) (info : EnumTypeInfo)
    (h : findGoEnumTypeAtPosition ws fileUri position symbols = some info) :
    goTypeAliasLine (ws.lineAt fileUri info.typeSymbol.range.first.line) = true ∧
    firstCharIsUppercaseLetter info.name = true ∧
    info.name = info.typeSymbol.name := by
  rcases List.exists_of_findSome?_eq_some h with ⟨symbol, _, hs⟩
  revert hs
  split_ifs with h1 h2 h3
  · intro hc
    injection hc with hc
    subst hc
    simp only [Bool.and_eq_true] at h3
    exact ⟨h3.1, h3.2, rfl⟩
  · intro hc; cases hc
  · intro hc; cases hc
  · intro hc; cases hc

theorem findTsEnumTypeAtPosition_validates (ws : Workspace) (fileUri : Nat)
    (position : Pos) (symbols : List DocSymbol) (info : EnumTypeInfo)
    (h : findTsEnumTypeAtPosition ws fileUri position symbols = some info) :
    ∃ typeName,
      tsExportTypeCapture (ws.lineAt fileUri position.line) = some typeName ∧
      info.name = typeName ∧
      tsTypeofToggle ws fileUri typeName position.line = true := by
  revert h
  rw [findTsEnumTypeAtPosition]
  cases hcap : tsExportTypeCapture (ws.lineAt fileUri position.line) with
  | none => intro h; cases h
  | some typeName =>
    simp only []
    split_ifs with h1
    · cases hfind : symbols.find? fun symbol => symbol.name == typeName with
      | some symbol =>
        intro h
        injection h with h
        subst h
        refine ⟨typeName, rfl, ?_, h1⟩
        simpa using List.find?_some hfind
      | none =>
        intro h
        injection h with h
        subst h
        exact ⟨typeName, rfl, rfl, h1⟩
    · intro h; cases h

/-- C8: an enum-constant or enum-type request matches a same-named symbol in
the other language only after independent validation on both sides — each
at-position classifier only produces an info whose symbol passes the
category's shape predicate, and each reference collector only collects
references of a candidate symbol with the requested name that passes the
shape predicate, so a plain exported constant that fails the predicate is
never matched. -/
theorem c8_enum_shape_validation (ws : Workspace) (fileUri : Nat)
    (position : Pos) (symbols : List DocSymbol) (files : List Nat)
    (name : Str) (loc : Loc) :
    (∀ info, findGoEnumConstAtPosition ws fileUri position symbols = some info →
      isGoEnumConst ws fileUri info.constSymbol = true ∧
      info.name = info.constSymbol.name) ∧
    (∀ info, findTsEnumConstAtPosition ws fileUri position symbols = some info →
      isTsEnumConst ws fileUri info.constSymbol = true ∧
      info.name = info.constSymbol.name) ∧
    (loc ∈ findTsEnumConstReferences ws files name →
      ∃ tsFile ∈ files, ∃ syms, ws.symbolsOf tsFile = some syms ∧
        ∃ symbol ∈ syms,
          (symbol.kind = SKind.Constant ∨ symbol.kind = SKind.Variable) ∧
          symbol.name = name ∧ isTsEnumConst ws tsFile symbol = true ∧
          loc ∈ (ws.refsAt tsFile symbol.selRange.first).getD []) ∧
    (loc ∈ findGoEnumConstReferences ws files name →
      ∃ goFile ∈ files, ∃ syms, ws.symbolsOf goFile = some syms ∧
        ∃ symbol ∈ syms, symbol.kind = SKind.Constant ∧
          symbol.name = name ∧ isGoEnumConst ws goFile symbol = true ∧
          loc ∈ (ws.refsAt goFile symbol.selRange.first).getD []) ∧
    (loc ∈ findGoEnumTypeReferences ws files name →
      ∃ goFile ∈ files, ∃ syms, ws.symbolsOf goFile = some syms ∧
        ∃ symbol ∈ syms,
          (symbol.kind = SKind.Class ∨ symbol.kind = SKind.Interface) ∧
          symbol.name = name ∧
          goTypeAliasLine (ws.lineAt goFile symbol.range.first.line) = true ∧
          loc ∈ (ws.refsAt goFile symbol.selRange.first).getD []) ∧
    (loc ∈ findTsEnumTypeReferences ws files name →
      ∃ tsFile ∈ files, ∃ li idx,
        tsTypeDefLine name (ws.lineAt tsFile li) = true ∧
        tsTypeofToggle ws tsFile name li = true ∧
        indexOfSeq (32 :: (name ++ [32])) (ws.lineAt tsFile li) = some idx ∧
        loc ∈ (ws.refsAt tsFile ⟨li, idx + 1⟩).getD []) ∧
    (∀ info, findGoEnumTypeAtPosition ws fileUri position symbols = some info →
      goTypeAliasLine (ws.lineAt fileUri info.typeSymbol.range.first.line) = true ∧
      firstCharIsUppercaseLetter info.name = true ∧
      info.name = info.typeSymbol.name) ∧
    (∀ info, findTsEnumTypeAtPosition ws fileUri position symbols = some info →
      ∃ typeName,
        tsExportTypeCapture (ws.lineAt fileUri position.line) = some typeName ∧
        info.name = typeName ∧
        tsTypeofToggle ws fileUri typeName position.line = true) :=
  ⟨fun info h => findGoEnumConstAtPosition_validates ws fileUri position symbols info h,
   fun info h => findTsEnumConstAtPosition_validates ws fileUri position symbols info h,
   fun h => findTsEnumConstReferences_mem ws files name loc h,
   fun h => findGoEnumConstReferences_mem ws files name loc h,
   fun h => findGoEnumTypeReferences_mem ws files name loc h,
   fun h => findTsEnumTypeReferences_mem ws files name loc h,
   fun info h => findGoEnumTypeAtPosition_validates ws fileUri position symbols info h,
   fun info h => findTsEnumTypeAtPosition_validates ws fileUri position symbols info h⟩

theorem c8_enum_shape_validation_witness :
    isGoEnumConst enumWs 0
      (⟨str "StatusActive", demoGoConstSym, 0, true⟩ : EnumConstInfo).constSymbol = true ∧
    (⟨str "StatusActive", demoGoConstSym, 0, true⟩ : EnumConstInfo).name =
      (⟨str "StatusActive", demoGoConstSym, 0, true⟩ : EnumConstInfo).constSymbol.name :=
  (c8_enum_shape_validation enumWs 0 ⟨0, 3⟩ [demoGoConstSym] [] (str "x")
      ⟨0, 0, 0⟩).1 ⟨str "StatusActive", demoGoConstSym, 0, true⟩ rfl

theorem oracleGetD_lang (ws : Workspace) (g : Nat → Pos → Option (List Loc))
    (hg : ∀ f p l, g f p = some l → ∀ r ∈ l, ws.langOf r.file = ws.langOf f)
    (f : Nat) (p : Pos) (r : Loc) (h : r ∈ (g f p).getD []) :
    ws.langOf r.file = ws.langOf f := by
  cases hr : g f p with
  | none => simp [hr] at h
  | some l =>
    simp only [hr, Option.getD_some] at h
    exact hg f p l hr r h

theorem findMatchingSymbolsInGoFiles_fileUri (ws : Workspace) (files : List Nat)
    (names : List Str) (src : Bool) (kind : SKind) (strict : Bool) :
    ∀ c ∈ findMatchingSymbolsInGoFiles ws files names src kind strict,
      c.fileUri ∈ files := by
  intro c hc
  unfold findMatchingSymbolsInGoFiles at hc
  split_ifs at hc with h1 h2
  · unfold findGoFunctionForTsFunctionViaMatching at hc
    rcases (mem_sorted_flatMap _ files c).mp hc with ⟨f, hf, hcf⟩
    revert hcf
    cases ws.symbolsOf f with
    | none => simp
    | some symbols =>
      intro hcf
      rcases (goFunctionFileCandidates_mem symbols f names src strict c).mp hcf with
        ⟨s, _, _, _, _, _, rfl⟩
      exact hf
  · unfold findGoStructForTsInterfaceViaMatching at hc
    rcases (mem_sorted_flatMap _ files c).mp hc with ⟨f, hf, hcf⟩
    revert hcf
    cases ws.symbolsOf f with
    | none => simp
    | some symbols =>
      intro hcf
      rcases (goStructFileCandidates_mem symbols f names c).mp hcf with
        ⟨s, _, _, _, _, rfl⟩
      exact hf
  · cases hc

theorem findMatchingSymbolsInTsFiles_fileUri (ws : Workspace) (files : List Nat)
    (names : List Str) (src : Bool) (kind : SKind) (strict : Bool) :
    ∀ c ∈ findMatchingSymbolsInTsFiles ws files names src kind strict,
      c.fileUri ∈ files := by
  intro c hc
  unfold findMatchingSymbolsInTsFiles at hc
  split_ifs at hc with h1 h2
  · unfold findTsFunctionForGoFunctionViaMatching at hc
    rcases (mem_sorted_flatMap _ files c).mp hc with ⟨f, hf, hcf⟩
    revert hcf
    cases ws.symbolsOf f with
    | none => simp
    | some symbols =>
      intro hcf
      rcases (tsFunctionFileCandidates_mem ws symbols f names src strict c).mp hcf with
        ⟨s, _, _, _, _, _, rfl⟩
      exact hf
  · unfold findTsInterfaceForGoStructViaMatching at hc
    rcases (mem_sorted_flatMap _ files c).mp hc with ⟨f, hf, hcf⟩
    revert hcf
    cases ws.symbolsOf f with
    | none => simp
    | some symbols =>
      intro hcf
      rcases (tsInterfaceFileCandidates_mem ws symbols f names c).mp hcf with
        ⟨s, _, _, _, _, rfl⟩
      exact hf
  · cases hc

theorem findSymbolDeclarationInGoFiles_files (ws : Workspace) (files : List Nat)
    (names : List Str) (src : Bool) (kind : SKind) :
    ∀ loc ∈ findSymbolDeclarationInGoFiles ws files names src kind,
      loc.file ∈ files := by
  intro loc hloc
  unfold findSymbolDeclarationInGoFiles at hloc
  revert hloc
  cases h : findMatchingSymbolsInGoFiles ws files names src kind ws.strictExport with
  | nil => simp
  | cons best rest =>
    intro hloc
    rcases List.mem_map.mp hloc with ⟨c, hc, rfl⟩
    exact findMatchingSymbolsInGoFiles_fileUri ws files names src kind
      ws.strictExport c (by rw [h]; exact List.mem_of_mem_filter hc)

theorem findSymbolDeclarationInTsFiles_files (ws : Workspace) (files : List Nat)
    (names : List Str) (src : Bool) (kind : SKind) :
    ∀ loc ∈ findSymbolDeclarationInTsFiles ws files names src kind,
      loc.file ∈ files := by
  intro loc hloc
  unfold findSymbolDeclarationInTsFiles at hloc
  revert hloc
  cases h : findMatchingSymbolsInTsFiles ws files names src kind ws.strictExport with
  | nil => simp
  | cons best rest =>
    intro hloc
    rcases List.mem_map.mp hloc with ⟨c, hc, rfl⟩
    exact findMatchingSymbolsInTsFiles_fileUri ws files names src kind
      ws.strictExport c (by rw [h]; exact List.mem_of_mem_filter hc)

theorem collectBestRefs_sources (ws : Workspace) (b : Nat) :
    ∀ (cs : List SymbolCandidate) (loc : Loc),
      loc ∈ collectBestRefs ws b cs →
      ∃ c ∈ cs, loc ∈ (ws.refsAt c.fileUri c.symbol.selRange.first).getD [] := by
  intro cs
  induction cs with
  | nil => intro loc h; cases h
  | cons a t ih =>
    intro loc h
    rw [collectBestRefs] at h
    split_ifs at h with h1
    · cases h
    · rcases List.mem_append.mp h with h2 | h2
      · exact ⟨a, List.mem_cons_self _ _, h2⟩
      · rcases ih loc h2 with ⟨c, hc, hl⟩
        exact ⟨c, List.mem_cons_of_mem _ hc, hl⟩

theorem findSymbolReferencesInGoFiles_sources (ws : Workspace)
    (files : List Nat) (names : List Str) (src : Bool) (kind : SKind) :
    ∀ loc ∈ findSymbolReferencesInGoFiles ws files names src kind,
      ∃ f ∈ files, ∃ p, loc ∈ (ws.refsAt f p).getD [] := by
  intro loc hloc
  unfold findSymbolReferencesInGoFiles at hloc
  revert hloc
  cases h : findMatchingSymbolsInGoFiles ws files names src kind ws.strictExport with
  | nil => simp
  | cons best rest =>
    intro hloc
    rw [mem_getUniqueLocations] at hloc
    rcases collectBestRefs_sources ws best.score _ loc hloc with ⟨c, hc, hl⟩
    exact ⟨c.fileUri,
      findMatchingSymbolsInGoFiles_fileUri ws files names src kind
        ws.strictExport c (by rw [h]; exact hc), _, hl⟩

theorem findSymbolReferencesInTsFiles_sources (ws : Workspace)
    (files : List Nat) (names : List Str) (src : Bool) (kind : SKind) :
    ∀ loc ∈ findSymbolReferencesInTsFiles ws files names src kind,
      ∃ f ∈ files, ∃ p, loc ∈ (ws.refsAt f p).getD [] := by
  intro loc hloc
  unfold findSymbolReferencesInTsFiles at hloc
  revert hloc
  cases h : findMatchingSymbolsInTsFiles ws files names src kind ws.strictExport with
  | nil => simp
  | cons best rest =>
    intro hloc
    rw [mem_getUniqueLocations] at hloc
    rcases collectBestRefs_sources ws best.score _ loc hloc with ⟨c, hc, hl⟩
    exact ⟨c.fileUri,
      findMatchingSymbolsInTsFiles_fileUri ws files names src kind
        ws.strictExport c (by rw [h]; exact hc), _, hl⟩

theorem findGoFieldForTsProperty_fileOrigin (ws : Workspace)
    (info fi : FieldInfo) (h : findGoFieldForTsProperty ws info = some fi) :
    fi.fileUri ∈ ws.goFilesOf info.fileUri := by
  rw [findGoFieldForTsProperty] at h
  by_cases hempty : (ws.goFilesOf info.fileUri).isEmpty = true
  · rw [if_pos hempty] at h; cases h
  · rw [if_neg hempty] at h
    rcases List.exists_of_findSome?_eq_some h with ⟨goFile, hgf, hfile⟩
    revert hfile
    cases ws.symbolsOf goFile with
    | none => intro hc; cases hc
    | some symbols =>
      simp only []
      intro hfile
      rcases List.exists_of_findSome?_eq_some hfile with ⟨symbol, _, hsym⟩
      revert hsym
      split_ifs with h1
      · cases htag : goFieldByTag ws goFile symbol info.name with
        | some fi2 =>
          simp only [htag, Option.some.injEq]
          intro hc
          subst hc
          rw [(goFieldByTag_spec ws goFile symbol info.name fi2 htag).2.2]
          exact hgf
        | none =>
          simp only [htag]
          intro hname
          rw [(goFieldByName_spec ws goFile symbol info.name fi hname).2.2]
          exact hgf
      · intro hc; cases hc

theorem findTsPropertyForGoField_fileOrigin (ws : Workspace)
    (info fi : FieldInfo) (h : findTsPropertyForGoField ws info = some fi) :
    fi.fileUri ∈ ws.tsFilesOf info.fileUri := by
  rw [findTsPropertyForGoField] at h
  by_cases hempty : (ws.tsFilesOf info.fileUri).isEmpty = true
  · rw [if_pos hempty] at h; cases h
  · rw [if_neg hempty] at h
    rcases List.exists_of_findSome?_eq_some h with ⟨tsFile, htf, hfile⟩
    revert hfile
    cases ws.symbolsOf tsFile with
    | none => intro hc; cases hc
    | some symbols =>
      simp only []
      intro hfile
      rcases List.exists_of_findSome?_eq_some hfile with ⟨symbol, _, hsym⟩
      revert hsym
      split_ifs with h1
      · intro hchild
        rcases List.exists_of_findSome?_eq_some hchild with ⟨child, _, hc⟩
        revert hc
        split_ifs with h2
        · intro hc
          injection hc with hc
          subst hc
          exact htf
        · intro hc; cases hc
      · intro hc; cases hc

theorem lang_opp_ne_go {l : Lang}
    (h : l = Lang.typescript ∨ l = Lang.typescriptreact) : l ≠ Lang.go := by
  rcases h with rfl | rfl <;> decide

theorem findEnumConstReferences_cross (ws : Workspace)
    (hGo : ∀ x f, f ∈ ws.goFilesOf x → ws.langOf f = Lang.go)
    (hTs : ∀ x f, f ∈ ws.tsFilesOf x →
      ws.langOf f = Lang.typescript ∨ ws.langOf f = Lang.typescriptreact)
    (hRefs : ∀ f p l, ws.refsAt f p = some l →
      ∀ r ∈ l, ws.langOf r.file = ws.langOf f)
    (info : EnumConstInfo) (lang : Lang) :
    ∀ loc ∈ findEnumConstReferences ws info lang, ws.langOf loc.file ≠ lang := by
  intro loc hloc
  cases lang with
  | go =>
    rw [findEnumConstReferences, if_pos (by decide)] at hloc
    by_cases hE : (ws.tsFilesOf info.fileUri).isEmpty = true
    · rw [if_pos hE] at hloc; cases hloc
    · rw [if_neg hE] at hloc
      rcases findTsEnumConstReferences_mem ws _ _ loc hloc with
        ⟨tsFile, htf, _, _, symbol, _, _, _, _, hl⟩
      rw [oracleGetD_lang ws ws.refsAt hRefs tsFile _ loc hl]
      exact lang_opp_ne_go (hTs _ _ htf)
  | typescript =>
    rw [findEnumConstReferences, if_neg (by decide), if_pos (by decide)] at hloc
    by_cases hE : (ws.goFilesOf info.fileUri).isEmpty = true
    · rw [if_pos hE] at hloc; cases hloc
    · rw [if_neg hE] at hloc
      rcases findGoEnumConstReferences_mem ws _ _ loc hloc with
        ⟨goFile, hgf, _, _, symbol, _, _, _, _, hl⟩
      rw [oracleGetD_lang ws ws.refsAt hRefs goFile _ loc hl, hGo _ _ hgf]
      decide
  | typescriptreact =>
    rw [findEnumConstReferences, if_neg (by decide), if_pos (by decide)] at hloc
    by_cases hE : (ws.goFilesOf info.fileUri).isEmpty = true
    · rw [if_pos hE] at hloc; cases hloc
    · rw [if_neg hE] at hloc
      rcases findGoEnumConstReferences_mem ws _ _ loc hloc with
        ⟨goFile, hgf, _, _, symbol, _, _, _, _, hl⟩
      rw [oracleGetD_lang ws ws.refsAt hRefs goFile _ loc hl, hGo _ _ hgf]
      decide
  | other =>
    rw [findEnumConstReferences, if_neg (by decide), if_neg (by decide)] at hloc
    cases hloc

theorem findEnumTypeReferences_cross (ws : Workspace)
    (hGo : ∀ x f, f ∈ ws.goFilesOf x → ws.langOf f = Lang.go)
    (hTs : ∀ x f, f ∈ ws.tsFilesOf x →
      ws.langOf f = Lang.typescript ∨ ws.langOf f = Lang.typescriptreact)
    (hRefs : ∀ f p l, ws.refsAt f p = some l →
      ∀ r ∈ l, ws.langOf r.file = ws.langOf f)
    (info : EnumTypeInfo) (lang : Lang) :
    ∀ loc ∈ findEnumTypeReferences ws info lang, ws.langOf loc.file ≠ lang := by
  intro loc hloc
  cases lang with
  | go =>
    rw [findEnumTypeReferences, if_pos (by decide)] at hloc
    by_cases hE : (ws.tsFilesOf info.fileUri).isEmpty = true
    · rw [if_pos hE] at hloc; cases hloc
    · rw [if_neg hE] at hloc
      rcases findTsEnumTypeReferences_mem ws _ _ loc hloc with
        ⟨tsFile, htf, _, _, _, _, _, hl⟩
      rw [oracleGetD_lang ws ws.refsAt hRefs tsFile _ loc hl]
      exact lang_opp_ne_go (hTs _ _ htf)
  | typescript =>
    rw [findEnumTypeReferences, if_neg (by decide), if_pos (by decide)] at hloc
    by_cases hE : (ws.goFilesOf info.fileUri).isEmpty = true
    · rw [if_pos hE] at hloc; cases hloc
    · rw [if_neg hE] at hloc
      rcases findGoEnumTypeReferences_mem ws _ _ loc hloc with
        ⟨goFile, hgf, _, _, symbol, _, _, _, _, hl⟩
      rw [oracleGetD_lang ws ws.refsAt hRefs goFile _ loc hl, hGo _ _ hgf]
      decide
  | typescriptreact =>
    rw [findEnumTypeReferences, if_neg (by decide), if_pos (by decide)] at hloc
    by_cases hE : (ws.goFilesOf info.fileUri).isEmpty = true
    · rw [if_pos hE] at hloc; cases hloc
    · rw [if_neg hE] at hloc
      rcases findGoEnumTypeReferences_mem ws _ _ loc hloc with
        ⟨goFile, hgf, _, _, symbol, _, _, _, _, hl⟩
      rw [oracleGetD_lang ws ws.refsAt hRefs goFile _ loc hl, hGo _ _ hgf]
      decide
  | other =>
    rw [findEnumTypeReferences, if_neg (by decide), if_neg (by decide)] at hloc
    cases hloc

theorem findInterfaceReferences_cross (ws : Workspace) (rs : Resolvers)
    (hRefs : ∀ f p l, ws.refsAt f p = some l →
      ∀ r ∈ l, ws.langOf r.file = ws.langOf f)
    (hCorrI : ∀ info lang corr,
      rs.correspondingInterface info lang = some corr →
      (lang = Lang.go → ws.langOf corr.fileUri = Lang.typescript ∨
        ws.langOf corr.fileUri = Lang.typescriptreact) ∧
      (lang = Lang.typescript ∨ lang = Lang.typescriptreact →
        ws.langOf corr.fileUri = Lang.go))
    (info : InterfaceInfo) (lang : Lang)
    (hlang : lang = Lang.go ∨ lang = Lang.typescript ∨
      lang = Lang.typescriptreact) :
    ∀ loc ∈ findInterfaceReferences ws rs info lang,
      ws.langOf loc.file ≠ lang := by
  intro loc hloc
  revert hloc
  unfold findInterfaceReferences
  cases hcorr : rs.correspondingInterface info lang with
  | none => intro hloc; cases hloc
  | some corr =>
    intro hloc
    rw [oracleGetD_lang ws ws.refsAt hRefs corr.fileUri _ loc hloc]
    rcases hlang with rfl | hlang2
    · exact lang_opp_ne_go ((hCorrI info _ corr hcorr).1 rfl)
    · rw [(hCorrI info _ corr hcorr).2 hlang2]
      rcases hlang2 with rfl | rfl <;> decide

theorem findInterfaceMethodReferences_cross (ws : Workspace) (rs : Resolvers)
    (hRefs : ∀ f p l, ws.refsAt f p = some l →
      ∀ r ∈ l, ws.langOf r.file = ws.langOf f)
    (hCorrM : ∀ info lang corr,
      rs.correspondingMethod info lang = some corr →
      (lang = Lang.go → ws.langOf corr.fileUri = Lang.typescript ∨
        ws.langOf corr.fileUri = Lang.typescriptreact) ∧
      (lang = Lang.typescript ∨ lang = Lang.typescriptreact →
        ws.langOf corr.fileUri = Lang.go))
    (info : InterfaceMethodInfo) (lang : Lang)
    (hlang : lang = Lang.go ∨ lang = Lang.typescript ∨
      lang = Lang.typescriptreact) :
    ∀ loc ∈ findInterfaceMethodReferences ws rs info lang,
      ws.langOf loc.file ≠ lang := by
  intro loc hloc
  revert hloc
  unfold findInterfaceMethodReferences
  cases hcorr : rs.correspondingMethod info lang with
  | none => intro hloc; cases hloc
  | some corr =>
    intro hloc
    rw [oracleGetD_lang ws ws.refsAt hRefs corr.fileUri _ loc hloc]
    rcases hlang with rfl | hlang2
    · exact lang_opp_ne_go ((hCorrM info _ corr hcorr).1 rfl)
    · rw [(hCorrM info _ corr hcorr).2 hlang2]
      rcases hlang2 with rfl | rfl <;> decide

theorem findFieldReferences_cross (ws : Workspace)
    (hGo : ∀ x f, f ∈ ws.goFilesOf x → ws.langOf f = Lang.go)
    (hTs : ∀ x f, f ∈ ws.tsFilesOf x →
      ws.langOf f = Lang.typescript ∨ ws.langOf f = Lang.typescriptreact)
    (hRefs : ∀ f p l, ws.refsAt f p = some l →
      ∀ r ∈ l, ws.langOf r.file = ws.langOf f)
    (info : FieldInfo) (lang : Lang) :
    ∀ loc ∈ findFieldReferences ws info lang, ws.langOf loc.file ≠ lang := by
  intro loc hloc
  revert hloc
  unfold findFieldReferences
  cases hcorr : findCorrespondingField ws info lang with
  | none => intro hloc; cases hloc
  | some corr =>
    intro hloc
    rw [oracleGetD_lang ws ws.refsAt hRefs corr.fileUri _ loc hloc]
    cases lang with
    | go =>
      rw [findCorrespondingField, if_pos (by decide)] at hcorr
      exact lang_opp_ne_go (hTs _ _ (findTsPropertyForGoField_fileOrigin ws info corr hcorr))
    | typescript =>
      rw [findCorrespondingField, if_neg (by decide), if_pos (by decide)] at hcorr
      rw [hGo _ _ (findGoFieldForTsProperty_fileOrigin ws info corr hcorr)]
      decide
    | typescriptreact =>
      rw [findCorrespondingField, if_neg (by decide), if_pos (by decide)] at hcorr
      rw [hGo _ _ (findGoFieldForTsProperty_fileOrigin ws info corr hcorr)]
      decide
    | other =>
      rw [findCorrespondingField, if_neg (by decide), if_neg (by decide)] at hcorr
      cases hcorr

theorem findSymbolReferences_cross (ws : Workspace)
    (hGo : ∀ x f, f ∈ ws.goFilesOf x → ws.langOf f = Lang.go)
    (hTs : ∀ x f, f ∈ ws.tsFilesOf x →
      ws.langOf f = Lang.typescript ∨ ws.langOf f = Lang.typescriptreact)
    (hRefs : ∀ f p l, ws.refsAt f p = some l →
      ∀ r ∈ l, ws.langOf r.file = ws.langOf f)
    (info : SymbolInfo) (lang : Lang) :
    ∀ loc ∈ findSymbolReferences ws info lang, ws.langOf loc.file ≠ lang := by
  intro loc hloc
  cases lang with
  | go =>
    rw [findSymbolReferences, if_neg (by decide), if_pos (by decide),
      findTsReferences] at hloc
    split_ifs at hloc with hE
    · cases hloc
    · rcases findSymbolReferencesInTsFiles_sources ws _ _ _ _ loc hloc with
        ⟨f, hf, p, hl⟩
      rw [oracleGetD_lang ws ws.refsAt hRefs f p loc hl]
      exact lang_opp_ne_go (hTs _ _ hf)
  | typescript =>
    rw [findSymbolReferences, if_pos (by decide), findGoReferences] at hloc
    split_ifs at hloc with hE
    · cases hloc
    · rcases findSymbolReferencesInGoFiles_sources ws _ _ _ _ loc hloc with
        ⟨f, hf, p, hl⟩
      rw [oracleGetD_lang ws ws.refsAt hRefs f p loc hl, hGo _ _ hf]
      decide
  | typescriptreact =>
    rw [findSymbolReferences, if_pos (by decide), findGoReferences] at hloc
    split_ifs at hloc with hE
    · cases hloc
    · rcases findSymbolReferencesInGoFiles_sources ws _ _ _ _ loc hloc with
        ⟨f, hf, p, hl⟩
      rw [oracleGetD_lang ws ws.refsAt hRefs f p loc hl, hGo _ _ hf]
      decide
  | other =>
    rw [findSymbolReferences, if_neg (by decide), if_neg (by decide)] at hloc
    cases hloc

theorem findReferences_cross (ws : Workspace) (rs : Resolvers)
    (hGo : ∀ x f, f ∈ ws.goFilesOf x → ws.langOf f = Lang.go)
    (hTs : ∀ x f, f ∈ ws.tsFilesOf x →
      ws.langOf f = Lang.typescript ∨ ws.langOf f = Lang.typescriptreact)
    (hRefs : ∀ f p l, ws.refsAt f p = some l →
      ∀ r ∈ l, ws.langOf r.file = ws.langOf f)
    (hCorrI : ∀ info lang corr,
      rs.correspondingInterface info lang = some corr →
      (lang = Lang.go → ws.langOf corr.fileUri = Lang.typescript ∨
        ws.langOf corr.fileUri = Lang.typescriptreact) ∧
      (lang = Lang.typescript ∨ lang = Lang.typescriptreact →
        ws.langOf corr.fileUri = Lang.go))
    (hCorrM : ∀ info lang corr,
      rs.correspondingMethod info lang = some corr →
      (lang = Lang.go → ws.langOf corr.fileUri = Lang.typescript ∨
        ws.langOf corr.fileUri = Lang.typescriptreact) ∧
      (lang = Lang.typescript ∨ lang = Lang.typescriptreact →
        ws.langOf corr.fileUri = Lang.go))
    (docFile : Nat) (position : Pos)
    (hdoc : ws.langOf docFile = Lang.go ∨ ws.langOf docFile = Lang.typescript ∨
      ws.langOf docFile = Lang.typescriptreact) :
    ∀ loc ∈ findReferences ws rs docFile position,
      ws.langOf loc.file ≠ ws.langOf docFile := by
  intro loc
  unfold findReferences
  cases rs.enumTypeInfoAt docFile position with
  | some ti => exact findEnumTypeReferences_cross ws hGo hTs hRefs ti _ loc
  | none =>
    cases rs.enumConstInfoAt docFile position with
    | some ci => exact findEnumConstReferences_cross ws hGo hTs hRefs ci _ loc
    | none =>
      cases rs.interfaceInfoAt docFile position with
      | some ii =>
        exact findInterfaceReferences_cross ws rs hRefs hCorrI ii _ hdoc loc
      | none =>
        cases rs.methodInfoAt docFile position with
        | some mi =>
          exact findInterfaceMethodReferences_cross ws rs hRefs hCorrM mi _ hdoc loc
        | none =>
          cases rs.fieldInfoAt docFile position with
          | some fi => exact findFieldReferences_cross ws hGo hTs hRefs fi _ loc
          | none =>
            cases rs.symbolInfoAt docFile position with
            | some si => exact findSymbolReferences_cross ws hGo hTs hRefs si _ loc
            | none => intro h; cases h

theorem findGoDeclaration_sources (ws : Workspace) (f : Nat) (name : Str)
    (exp : Bool) (kind : SKind) :
    ∀ loc ∈ findGoDeclaration ws f name exp kind, loc.file ∈ ws.goFilesOf f := by
  intro loc hloc
  unfold findGoDeclaration at hloc
  split_ifs at hloc with h
  · cases hloc
  · exact findSymbolDeclarationInGoFiles_files ws _ _ _ _ loc hloc

theorem findTsDeclaration_sources (ws : Workspace) (f : Nat) (name : Str)
    (exp : Bool) (kind : SKind) :
    ∀ loc ∈ findTsDeclaration ws f name exp kind, loc.file ∈ ws.tsFilesOf f := by
  intro loc hloc
  unfold findTsDeclaration at hloc
  split_ifs at hloc with h
  · cases hloc
  · exact findSymbolDeclarationInTsFiles_files ws _ _ _ _ loc hloc

theorem tsDeclWithStructExpansion_cross (ws : Workspace)
    (hTs : ∀ x f, f ∈ ws.tsFilesOf x →
      ws.langOf f = Lang.typescript ∨ ws.langOf f = Lang.typescriptreact)
    (hImpls : ∀ f p l, ws.implsAt f p = some l →
      ∀ r ∈ l, ws.langOf r.file = ws.langOf f)
    (goFileUri : Nat) (name : Str) (exp : Bool) (kind : SKind) :
    ∀ loc ∈ tsDeclWithStructExpansion ws goFileUri name exp kind,
      ws.langOf loc.file = Lang.typescript ∨
      ws.langOf loc.file = Lang.typescriptreact := by
  intro loc hloc
  unfold tsDeclWithStructExpansion at hloc
  rcases List.mem_append.mp hloc with h | h
  · exact hTs _ _ (findTsDeclaration_sources ws goFileUri name exp kind loc h)
  · split_ifs at h with hcond
    · rcases List.mem_flatMap.mp h with ⟨tsLoc, htl, hl⟩
      rw [oracleGetD_lang ws ws.implsAt hImpls tsLoc.file _ loc hl]
      exact hTs _ _ (findTsDeclaration_sources ws goFileUri name exp kind tsLoc htl)
    · cases h

theorem findImplementationsResolved_cross (ws : Workspace)
    (hGo : ∀ x f, f ∈ ws.goFilesOf x → ws.langOf f = Lang.go)
    (hTs : ∀ x f, f ∈ ws.tsFilesOf x →
      ws.langOf f = Lang.typescript ∨ ws.langOf f = Lang.typescriptreact)
    (hImpls : ∀ f p l, ws.implsAt f p = some l →
      ∀ r ∈ l, ws.langOf r.file = ws.langOf f)
    (docFile : Nat) (name : Str) (d : DeclarationInfo) :
    ∀ loc ∈ findImplementationsResolved ws docFile name d,
      ws.langOf loc.file ≠ ws.langOf docFile := by
  intro loc hloc
  unfold findImplementationsResolved at hloc
  split_ifs at hloc with h1 h2 h3
  · cases hloc
  · have := hGo _ _ (findGoDeclaration_sources ws d.location.file name _ d.kind loc hloc)
    rw [this]
    simp only [Bool.or_eq_true, beq_iff_eq] at h2
    rcases h2 with h | h <;> rw [h] <;> decide
  · have := tsDeclWithStructExpansion_cross ws hTs hImpls d.location.file name _ d.kind loc hloc
    rw [(beq_iff_eq.mp h3 : ws.langOf docFile = Lang.go)]
    exact lang_opp_ne_go this
  · cases hloc

theorem findImplementationsSymbolPath_cross (ws : Workspace) (rs : Resolvers)
    (hGo : ∀ x f, f ∈ ws.goFilesOf x → ws.langOf f = Lang.go)
    (hTs : ∀ x f, f ∈ ws.tsFilesOf x →
      ws.langOf f = Lang.typescript ∨ ws.langOf f = Lang.typescriptreact)
    (hImpls : ∀ f p l, ws.implsAt f p = some l →
      ∀ r ∈ l, ws.langOf r.file = ws.langOf f)
    (docFile : Nat) (position : Pos) (known : Option (Loc × SKind × Str)) :
    ∀ loc ∈ findImplementationsSymbolPath ws rs docFile position known,
      ws.langOf loc.file ≠ ws.langOf docFile := by
  intro loc
  unfold findImplementationsSymbolPath
  cases known with
  | some k =>
    obtain ⟨kl, kk, kn⟩ := k
    exact findImplementationsResolved_cross ws hGo hTs hImpls docFile kn ⟨kl, kk⟩ loc
  | none =>
    cases rs.symbolNameAt docFile position with
    | none => intro h; cases h
    | some symbolName =>
      show loc ∈
          (match findDeclarationLocationViaReferences ws docFile position symbolName with
          | none => []
          | some d => findImplementationsResolved ws docFile symbolName d) →
        ws.langOf loc.file ≠ ws.langOf docFile
      cases findDeclarationLocationViaReferences ws docFile position symbolName with
      | none => intro h; cases h
      | some d =>
        exact findImplementationsResolved_cross ws hGo hTs hImpls docFile symbolName d loc

theorem findImplementations_cross (ws : Workspace) (rs : Resolvers)
    (hGo : ∀ x f, f ∈ ws.goFilesOf x → ws.langOf f = Lang.go)
    (hTs : ∀ x f, f ∈ ws.tsFilesOf x →
      ws.langOf f = Lang.typescript ∨ ws.langOf f = Lang.typescriptreact)
    (hImpls : ∀ f p l, ws.implsAt f p = some l →
      ∀ r ∈ l, ws.langOf r.file = ws.langOf f)
    (hCorrI : ∀ info lang corr,
      rs.correspondingInterface info lang = some corr →
      (lang = Lang.go → ws.langOf corr.fileUri = Lang.typescript ∨
        ws.langOf corr.fileUri = Lang.typescriptreact) ∧
      (lang = Lang.typescript ∨ lang = Lang.typescriptreact →
        ws.langOf corr.fileUri = Lang.go))
    (docFile : Nat) (position : Pos) (known : Option (Loc × SKind × Str))
    (hdoc : ws.langOf docFile = Lang.go ∨ ws.langOf docFile = Lang.typescript ∨
      ws.langOf docFile = Lang.typescriptreact) :
    ∀ loc ∈ findImplementations ws rs docFile position known,
      ws.langOf loc.file ≠ ws.langOf docFile := by
  intro loc
  unfold findImplementations
  cases rs.interfaceInfoAt docFile position with
  | none => exact findImplementationsSymbolPath_cross ws rs hGo hTs hImpls docFile position known loc
  | some ii =>
    show loc ∈
        (if ii.hasMethods = true then
          findInterfaceImplementations ws rs ii (ws.langOf docFile)
        else findImplementationsSymbolPath ws rs docFile position known) →
      ws.langOf loc.file ≠ ws.langOf docFile
    by_cases hm : ii.hasMethods = true
    · rw [if_pos hm]
      unfold findInterfaceImplementations
      cases hcorr : rs.correspondingInterface ii (ws.langOf docFile) with
      | none => intro h; cases h
      | some corr =>
        intro h
        rcases List.mem_cons.mp h with rfl | h2
        · show ws.langOf corr.fileUri ≠ ws.langOf docFile
          rcases hdoc with hd | hd
          · rw [hd]
            exact lang_opp_ne_go ((hCorrI ii _ corr hcorr).1 hd)
          · rw [(hCorrI ii _ corr hcorr).2 hd]
            rcases hd with h | h <;> rw [h] <;> decide
        · rcases hdoc with hd | hd
          · rw [hd] at h2
            rw [if_pos (by decide)] at h2
            rw [oracleGetD_lang ws ws.implsAt hImpls corr.fileUri _ loc h2, hd]
            exact lang_opp_ne_go ((hCorrI ii _ corr hcorr).1 hd)
          · have hopp : ws.langOf corr.fileUri = Lang.go :=
              (hCorrI ii _ corr hcorr).2 hd
            have hloc2 : ws.langOf loc.file = ws.langOf corr.fileUri := by
              rcases hd with h | h
              · rw [h] at h2
                rw [if_neg (by decide), if_pos (by decide)] at h2
                exact oracleGetD_lang ws ws.implsAt hImpls corr.fileUri _ loc h2
              · rw [h] at h2
                rw [if_neg (by decide), if_pos (by decide)] at h2
                exact oracleGetD_lang ws ws.implsAt hImpls corr.fileUri _ loc h2
            rw [hloc2, hopp]
            rcases hd with h | h <;> rw [h] <;> decide
    · rw [if_neg (by simpa using hm)]
      exact findImplementationsSymbolPath_cross ws rs hGo hTs hImpls docFile position known loc

theorem demoWs_goFiles_lang : ∀ x f, f ∈ demoWs.goFilesOf x →
    demoWs.langOf f = Lang.go := by
  intro x f hf
  have hf2 : f ∈ [0] := hf
  rcases List.mem_singleton.mp hf2 with rfl
  rfl

theorem demoWs_tsFiles_lang : ∀ x f, f ∈ demoWs.tsFilesOf x →
    demoWs.langOf f = Lang.typescript ∨ demoWs.langOf f = Lang.typescriptreact := by
  intro x f hf
  have hf2 : f ∈ [1] := hf
  rcases List.mem_singleton.mp hf2 with rfl
  exact Or.inl rfl

theorem demoWs_refs_lang : ∀ f p l, demoWs.refsAt f p = some l →
    ∀ r ∈ l, demoWs.langOf r.file = demoWs.langOf f := by
  intro f p l h r hr
  have h2 : (if f == 0 then some [⟨0, p.line, p.col⟩, ⟨0, 3, 9⟩] else
      if f == 1 then some [⟨1, p.line, p.col⟩, ⟨1, 7, 4⟩] else
      (none : Option (List Loc))) = some l := h
  by_cases h0 : (f == 0) = true
  · rw [if_pos h0] at h2
    injection h2 with h2
    subst h2
    have hf : f = 0 := by simpa using h0
    subst hf
    rcases List.mem_cons.mp hr with rfl | hr2
    · rfl
    · rcases List.mem_cons.mp hr2 with rfl | hr3
      · rfl
      · cases hr3
  · rw [if_neg h0] at h2
    by_cases h1 : (f == 1) = true
    · rw [if_pos h1] at h2
      injection h2 with h2
      subst h2
      have hf : f = 1 := by simpa using h1
      subst hf
      rcases List.mem_cons.mp hr with rfl | hr2
      · rfl
      · rcases List.mem_cons.mp hr2 with rfl | hr3
        · rfl
        · cases hr3
    · rw [if_neg h1] at h2
      cases h2

theorem demoWs_impls_lang : ∀ f p l, demoWs.implsAt f p = some l →
    ∀ r ∈ l, demoWs.langOf r.file = demoWs.langOf f := by
  intro f p l h r hr
  have h2 : some ([] : List Loc) = some l := h
  injection h2 with h2
  subst h2
  cases hr

theorem demoRs_corrI : ∀ info lang corr,
    demoRs.correspondingInterface info lang = some corr →
    (lang = Lang.go → demoWs.langOf corr.fileUri = Lang.typescript ∨
      demoWs.langOf corr.fileUri = Lang.typescriptreact) ∧
    (lang = Lang.typescript ∨ lang = Lang.typescriptreact →
      demoWs.langOf corr.fileUri = Lang.go) := by
  intro info lang corr h
  have h2 : (none : Option InterfaceInfo) = some corr := h
  exact Option.noConfusion h2

theorem demoRs_corrM : ∀ info lang corr,
    demoRs.correspondingMethod info lang = some corr →
    (lang = Lang.go → demoWs.langOf corr.fileUri = Lang.typescript ∨
      demoWs.langOf corr.fileUri = Lang.typescriptreact) ∧
    (lang = Lang.typescript ∨ lang = Lang.typescriptreact →
      demoWs.langOf corr.fileUri = Lang.go) := by
  intro info lang corr h
  have h2 : (none : Option InterfaceMethodInfo) = some corr := h
  exact Option.noConfusion h2

/-- C6 counterexample: triggered on the Go struct `Article`,
`provideImplementation` returns the requesting symbol's own same-language
declaration location in the requesting Go file, so the produced list is not
cross-language-only. -/
theorem c6_same_language_counterexample :
    provideImplementationCore implWs implRs 0 ⟨0, 6⟩ = some [⟨0, 0, 5⟩] ∧
      implWs.langOf 0 = Lang.go := by
  have h1 : findSymbolAtCursor [demoGoArticleStruct] ⟨0, 6⟩ =
      some demoGoArticleStruct := by
    simp [findSymbolAtCursor, demoGoArticleStruct, rngContainsPos, posLe, lineRng]
  have h3 : goCurrentDeclaration implWs 0 ⟨0, 6⟩ (str "Article") =
      some ((⟨0, 0, 5⟩ : Loc), SKind.Struct) := by
    show (match findSymbolAtCursor [demoGoArticleStruct] ⟨0, 6⟩ with
      | none => none
      | some currentSymbol =>
        if (currentSymbol.kind == SKind.Function ||
            currentSymbol.kind == SKind.Struct ||
            currentSymbol.kind == SKind.Interface) &&
            currentSymbol.name == str "Article" then
          some (symbolLoc 0 currentSymbol, currentSymbol.kind)
        else none) = some ((⟨0, 0, 5⟩ : Loc), SKind.Struct)
    rw [h1]
    rfl
  have h4 : goKnownDeclaration implWs implRs 0 ⟨0, 6⟩ =
      ([(⟨0, 0, 5⟩ : Loc)], some (⟨0, 0, 5⟩, SKind.Struct, str "Article")) := by
    show (match goCurrentDeclaration implWs 0 ⟨0, 6⟩ (str "Article") with
      | some (loc, kind) => ([loc], some (loc, kind, str "Article"))
      | none => goDefinitionDeclaration implWs 0 ⟨0, 6⟩) =
      ([(⟨0, 0, 5⟩ : Loc)], some (⟨0, 0, 5⟩, SKind.Struct, str "Article"))
    rw [h3]
  refine ⟨?_, rfl⟩
  unfold provideImplementationCore
  rw [h4]
  rfl

/-- C6 (amended): when sibling Go/TS files, the editor reference and
implementation providers, and the interface/method sub-matchers respect
languages, `findReferences` and `findImplementations` return only locations
of a language different from the requesting document, and every location
`provideImplementation` returns is either cross-language or comes from the
deliberate same-language preamble (the requesting Go symbol's own
declaration, or the TypeScript native implementation provider's results at
the cursor). -/
theorem c6_cross_language_results (ws : Workspace) (rs : Resolvers)
    (hGo : ∀ x f, f ∈ ws.goFilesOf x → ws.langOf f = Lang.go)
    (hTs : ∀ x f, f ∈ ws.tsFilesOf x →
      ws.langOf f = Lang.typescript ∨ ws.langOf f = Lang.typescriptreact)
    (hRefs : ∀ f p l, ws.refsAt f p = some l →
      ∀ r ∈ l, ws.langOf r.file = ws.langOf f)
    (hImpls : ∀ f p l, ws.implsAt f p = some l →
      ∀ r ∈ l, ws.langOf r.file = ws.langOf f)
    (hCorrI : ∀ info lang corr,
      rs.correspondingInterface info lang = some corr →
      (lang = Lang.go → ws.langOf corr.fileUri = Lang.typescript ∨
        ws.langOf corr.fileUri = Lang.typescriptreact) ∧
      (lang = Lang.typescript ∨ lang = Lang.typescriptreact →
        ws.langOf corr.fileUri = Lang.go))
    (hCorrM : ∀ info lang corr,
      rs.correspondingMethod info lang = some corr →
      (lang = Lang.go → ws.langOf corr.fileUri = Lang.typescript ∨
        ws.langOf corr.fileUri = Lang.typescriptreact) ∧
      (lang = Lang.typescript ∨ lang = Lang.typescriptreact →
        ws.langOf corr.fileUri = Lang.go))
    (docFile : Nat) (position : Pos) (known : Option (Loc × SKind × Str))
    (hdoc : ws.langOf docFile = Lang.go ∨ ws.langOf docFile = Lang.typescript ∨
      ws.langOf docFile = Lang.typescriptreact) :
    (∀ loc ∈ findReferences ws rs docFile position,
      ws.langOf loc.file ≠ ws.langOf docFile) ∧
    (∀ loc ∈ findImplementations ws rs docFile position known,
      ws.langOf loc.file ≠ ws.langOf docFile) ∧
    (∀ l, provideImplementationCore ws rs docFile position = some l →
      ∀ loc ∈ l,
        loc ∈ (if ws.langOf docFile == Lang.go then
            (goKnownDeclaration ws rs docFile position).1
          else (ws.implsAt docFile position).getD []) ∨
        ws.langOf loc.file ≠ ws.langOf docFile) := by
  refine ⟨findReferences_cross ws rs hGo hTs hRefs hCorrI hCorrM docFile position hdoc,
    findImplementations_cross ws rs hGo hTs hImpls hCorrI docFile position known hdoc,
    ?_⟩
  intro l hl loc hloc
  unfold provideImplementationCore at hl
  revert hl
  cases happ : ((if ws.langOf docFile == Lang.go then
      (goKnownDeclaration ws rs docFile position).1
    else (ws.implsAt docFile position).getD []) ++
    findImplementations ws rs docFile position
      (if ws.langOf docFile == Lang.go then
        (goKnownDeclaration ws rs docFile position).2
      else none)) with
  | nil => intro hl; cases hl
  | cons x xs =>
    intro hl
    injection hl with hl
    subst hl
    have hmem : loc ∈ (if ws.langOf docFile == Lang.go then
        (goKnownDeclaration ws rs docFile position).1
      else (ws.implsAt docFile position).getD []) ++
      findImplementations ws rs docFile position
        (if ws.langOf docFile == Lang.go then
          (goKnownDeclaration ws rs docFile position).2
        else none) := by
      rw [happ]
      exact hloc
    rcases List.mem_append.mp hmem with h | h
    · exact Or.inl h
    · exact Or.inr (findImplementations_cross ws rs hGo hTs hImpls hCorrI docFile
        position _ hdoc loc h)

theorem c6_cross_language_results_witness :
    demoWs.langOf (⟨0, 3, 9⟩ : Loc).file ≠ demoWs.langOf 1 :=
  (c6_cross_language_results demoWs demoRs demoWs_goFiles_lang demoWs_tsFiles_lang
      demoWs_refs_lang demoWs_impls_lang demoRs_corrI demoRs_corrM
      1 ⟨0, 17⟩ none (Or.inr (Or.inl rfl))).1 ⟨0, 3, 9⟩ (by decide)

end Bilingo
